import Mathlib

/-!
Shallow embedding of the hl-prime routing core (market registry, book
aggregator, fill simulator, market scorer, split optimizer, router,
collateral manager, facade) and proofs about it.

Modelling conventions:
* JavaScript IEEE-754 numbers are idealized as exact rationals (`ℚ`).  The
  source's determinism contract (spec §4.3) is about the algorithm, not the
  float format, and every claim below is arithmetic-shape preserving.
* Orderbook prices and sizes arrive as decimal strings and are parsed with
  `parseFloat` (modelled by `parseFloatQ` below on plain decimal literals,
  the only shape the venue emits).
* Venue I/O (book fetches, metadata fetches, balance reads) is modelled by
  passing the fetch outcomes (`Option`/`Except` values) as explicit inputs.
* JavaScript `Array.prototype.sort` is a stable sort under a consistent
  comparator; it is modelled by `List.insertionSort` with the corresponding
  total preorder, which is also stable, hence produces the same list.
* JavaScript `Map` iteration order is insertion order; maps are modelled as
  association lists that append fresh keys at the end.
-/

/-- Model of `parseFloat` on a plain decimal string (optional sign, integer
digits, optional fraction), idealized to an exact rational.  Book levels,
balances and funding rates in the source are all of this shape. -/
def digitsVal (cs : List Char) : ℕ :=
  cs.foldl (fun a c => a * 10 + (c.toNat - 48)) 0

def parseFloatQ (s : String) : ℚ :=
  let cs := s.data
  let signSplit : Bool × List Char :=
    match cs with
    | '-' :: rest => (true, rest)
    | '+' :: rest => (false, rest)
    | _ => (false, cs)
  let intDigits := signSplit.2.takeWhile Char.isDigit
  let rest := signSplit.2.dropWhile Char.isDigit
  let fracDigits :=
    match rest with
    | '.' :: r => r.takeWhile Char.isDigit
    | _ => []
  let mag : ℚ :=
    (digitsVal intDigits : ℚ) + (digitsVal fracDigits : ℚ) / (10 : ℚ) ^ fracDigits.length
  if signSplit.1 then -mag else mag

/-- One price level of a venue orderbook as it arrives on the wire
(`{px: decimal-string, sz: decimal-string}`, `src/provider/types.ts`). -/
structure L2Level where
  px : String
  sz : String
deriving DecidableEq, Repr

/-- An L2 book snapshot.  The source stores the two sides as
`levels[0]` (bids) and `levels[1]` (asks); they are named here. -/
structure L2Book where
  coin : String
  bids : List L2Level
  asks : List L2Level
deriving DecidableEq, Repr

inductive Side where
  | buy
  | sell
deriving DecidableEq, Repr

/-- The levels the simulator walks: asks for buys, bids for sells
(`simulator.ts` line 14). -/
def sideLevels (book : L2Book) (side : Side) : List L2Level :=
  match side with
  | .buy => book.asks
  | .sell => book.bids

/-- Result record of `FillSimulator.simulate` (`src/router/types.ts`). -/
structure SimulationResult where
  avgPrice : ℚ
  midPrice : ℚ
  priceImpactBps : ℚ
  totalCost : ℚ
  filledSize : ℚ
deriving DecidableEq, Repr

namespace FillSimulator

/-- The book-walking loop of `FillSimulator.simulate` (`simulator.ts`
lines 15-27): consume `min(remaining, sz)` at each level's price,
accumulating cost, breaking as soon as `remaining ≤ 0`.
Returns the final `(remaining, totalCost)`. -/
def walk (levels : List L2Level) (remaining totalCost : ℚ) : ℚ × ℚ :=
  match levels with
  | [] => (remaining, totalCost)
  | level :: rest =>
      let px := parseFloatQ level.px
      let sz := parseFloatQ level.sz
      let fillQty := min remaining sz
      let totalCost1 := totalCost + fillQty * px
      let remaining1 := remaining - fillQty
      if remaining1 ≤ 0 then (remaining1, totalCost1) else walk rest remaining1 totalCost1

/-- `FillSimulator.getMidPrice` (`simulator.ts` lines 41-52). -/
def getMidPrice (book : L2Book) : ℚ :=
  let bestBid := match book.bids with | [] => 0 | l :: _ => parseFloatQ l.px
  let bestAsk := match book.asks with | [] => 0 | l :: _ => parseFloatQ l.px
  if bestBid = 0 ∧ bestAsk = 0 then 0
  else if bestBid = 0 then bestAsk
  else if bestAsk = 0 then bestBid
  else (bestBid + bestAsk) / 2

/-- `FillSimulator.simulate` (`simulator.ts` lines 9-39).  `none` models
the `null` return (the `InsufficientDepth` outcome). -/
def simulate (book : L2Book) (side : Side) (size : ℚ) : Option SimulationResult :=
  let levels := sideLevels book side
  let wr := walk levels size 0
  if wr.1 > 0 then none
  else
    let avgPrice := wr.2 / size
    let midPrice := getMidPrice book
    let priceImpactBps := if midPrice > 0 then |avgPrice - midPrice| / midPrice * 10000 else 0
    some ⟨avgPrice, midPrice, priceImpactBps, wr.2, size⟩

end FillSimulator

/-- `PerpMarket` (`src/market/types.ts`). -/
structure PerpMarket where
  baseAsset : String
  coin : String
  assetIndex : ℕ
  dexName : String
  collateral : String
  isNative : Bool
  funding : Option String := none
  openInterest : Option String := none
  markPrice : Option String := none
  oraclePx : Option String := none
deriving DecidableEq, Repr

/-- `MarketScore` (`src/router/types.ts`).  `totalScore`/`priceImpact` use
`Option ℚ` with `none` standing for the IEEE `Infinity` sentinel the router
writes into entries for markets with insufficient depth; the scorer itself
always produces finite (`some`) values.  `reason` keeps only the fixed text
of the message (its interpolated number is presentation-only). -/
structure MarketScore where
  market : PerpMarket
  priceImpact : Option ℚ
  fundingRate : ℚ
  collateralMatch : Bool
  totalScore : Option ℚ
  swapCostBps : Option ℚ := none
  reason : Option String := none
deriving DecidableEq, Repr

/-- Default swap cost estimate (bps) when no spot book data is available
(`src/router/scorer.ts`). -/
def DEFAULT_SWAP_COST_BPS : ℚ := 50

namespace MarketScorer

/-- `MarketScorer.score` (`src/router/scorer.ts` lines 20-55, the version
taking an optional `swapCostBps`). -/
def score (simulation : SimulationResult) (market : PerpMarket) (side : Side)
    (userCollateral : List String) (swapCostBps : Option ℚ := none) : MarketScore :=
  let priceImpact := simulation.priceImpactBps
  let fundingRate := parseFloatQ (market.funding.getD "0")
  let fundingBenefit := match side with | .buy => -fundingRate | .sell => fundingRate
  let fundingScore := fundingBenefit * 10000 * 3
  let hasCollateral := userCollateral.contains market.collateral
  let collateralPenalty := if hasCollateral then 0 else swapCostBps.getD DEFAULT_SWAP_COST_BPS
  let totalScore := priceImpact - fundingScore + collateralPenalty
  { market := market
    priceImpact := some priceImpact
    fundingRate := fundingRate
    collateralMatch := hasCollateral
    totalScore := some totalScore
    swapCostBps := if hasCollateral then none else some (swapCostBps.getD DEFAULT_SWAP_COST_BPS)
    reason := if hasCollateral then none else some ("No " ++ market.collateral ++ " balance") }

end MarketScorer

/-- The claim C1 statement helper: the collateral penalty the scorer applies. -/
def collateralPenaltyOf (market : PerpMarket) (userCollateral : List String)
    (swapCostBps : Option ℚ) : ℚ :=
  if market.collateral ∈ userCollateral then 0 else swapCostBps.getD 50

/-- C1: the scorer's score decomposes as
`total_score = price_impact − funding_score + collateral_penalty` with
`funding_score = funding_benefit · 10000 · 3`,
`funding_benefit = −funding_rate` for buys and `+funding_rate` for sells,
and `collateral_penalty = 0` when the market's collateral is held, else the
provided `swap_cost_bps`, else the 50 bps default; `collateralMatch`
reports the membership test. -/
theorem C1_scorer_formula (simulation : SimulationResult) (market : PerpMarket)
    (side : Side) (userCollateral : List String) (swapCostBps : Option ℚ) :
    let s := MarketScorer.score simulation market side userCollateral swapCostBps
    let fundingRate := parseFloatQ (market.funding.getD "0")
    let fundingBenefit : ℚ := match side with | .buy => -fundingRate | .sell => fundingRate
    s.totalScore = some (simulation.priceImpactBps - fundingBenefit * 10000 * 3 +
        collateralPenaltyOf market userCollateral swapCostBps) ∧
      s.collateralMatch = decide (market.collateral ∈ userCollateral) := by
  have hmem : (userCollateral.contains market.collateral) =
      decide (market.collateral ∈ userCollateral) := by
    simp [List.contains_iff_exists_mem_beq]
  constructor
  · simp only [MarketScorer.score, collateralPenaltyOf, hmem]
    by_cases h : market.collateral ∈ userCollateral <;>
      simp [h, DEFAULT_SWAP_COST_BPS]
  · simp [MarketScorer.score, hmem]

/-- Total quoted size of a list of levels (the "cumulative size of the
walked side" in the simulator's contract). -/
def sumSz (levels : List L2Level) : ℚ :=
  (levels.map (fun l => parseFloatQ l.sz)).sum

/-- Specification-shaped greedy cost: consuming levels in order, taking
`min(size, level.sz)` at each `level.px`. -/
def greedyCost (levels : List L2Level) (size : ℚ) : ℚ :=
  match levels with
  | [] => 0
  | l :: rest =>
      let take := min size (parseFloatQ l.sz)
      take * parseFloatQ l.px + greedyCost rest (size - take)

namespace FillSimulator

theorem walk_remaining_nonneg (levels : List L2Level) (remaining totalCost : ℚ)
    (h : 0 ≤ remaining) : 0 ≤ (walk levels remaining totalCost).1 := by
  induction levels generalizing remaining totalCost with
  | nil => simpa [walk]
  | cons l rest ih =>
      simp only [walk]
      set fillQty := min remaining (parseFloatQ l.sz) with hfq
      have h1 : 0 ≤ remaining - fillQty := by
        have : fillQty ≤ remaining := min_le_left _ _
        linarith
      by_cases hbr : remaining - fillQty ≤ 0
      · simpa [hbr] using h1
      · simpa [hbr] using ih _ (totalCost + fillQty * parseFloatQ l.px) h1

theorem walk_remaining (levels : List L2Level) (remaining totalCost : ℚ)
    (h : 0 ≤ remaining) (hsz : ∀ l ∈ levels, 0 ≤ parseFloatQ l.sz) :
    (walk levels remaining totalCost).1 = max 0 (remaining - sumSz levels) := by
  induction levels generalizing remaining totalCost with
  | nil => simp [walk, sumSz, max_eq_right h]
  | cons l rest ih =>
      have hl : 0 ≤ parseFloatQ l.sz := hsz l (List.mem_cons_self _ _)
      have hrest : ∀ x ∈ rest, 0 ≤ parseFloatQ x.sz := fun x hx => hsz x (List.mem_cons_of_mem _ hx)
      have hsum : 0 ≤ sumSz rest := by
        unfold sumSz
        apply List.sum_nonneg
        intro q hq
        obtain ⟨x, hx, rfl⟩ := List.mem_map.mp hq
        exact hrest x hx
      simp only [walk]
      set fillQty := min remaining (parseFloatQ l.sz) with hfq
      have hr1 : remaining - fillQty = max 0 (remaining - parseFloatQ l.sz) := by
        rcases le_total remaining (parseFloatQ l.sz) with hc | hc
        · rw [hfq, min_eq_left hc]
          have : remaining - parseFloatQ l.sz ≤ 0 := by linarith
          simp [max_eq_left this]
        · rw [hfq, min_eq_right hc]
          have : 0 ≤ remaining - parseFloatQ l.sz := by linarith
          simp [max_eq_right this]
      by_cases hbr : remaining - fillQty ≤ 0
      · have hz : remaining - fillQty = 0 := by
          have : fillQty ≤ remaining := min_le_left _ _
          linarith
        have hle : remaining - parseFloatQ l.sz ≤ 0 := by
          by_contra hgt
          push_neg at hgt
          rw [hr1, max_eq_right (le_of_lt hgt)] at hz
          linarith
        have : remaining - sumSz (l :: rest) ≤ 0 := by
          simp only [sumSz, List.map_cons, List.sum_cons]
          have := hsum
          simp only [sumSz] at this
          linarith
        rw [if_pos hbr]
        simp [hz, max_eq_left this]
      · push_neg at hbr
        have h1 : 0 ≤ remaining - fillQty := le_of_lt hbr
        rw [if_neg (not_le.mpr hbr)]
        rw [ih _ _ h1 hrest]
        have hgt : 0 < remaining - parseFloatQ l.sz := by
          by_contra hle
          push_neg at hle
          rw [hr1, max_eq_left hle] at hbr
          exact lt_irrefl 0 hbr
        rw [hr1, max_eq_right (le_of_lt hgt)]
        have : remaining - parseFloatQ l.sz - sumSz rest = remaining - sumSz (l :: rest) := by
          simp only [sumSz, List.map_cons, List.sum_cons]
          ring
        rw [this]

theorem greedyCost_of_zero (levels : List L2Level)
    (hsz : ∀ l ∈ levels, 0 ≤ parseFloatQ l.sz) : greedyCost levels 0 = 0 := by
  induction levels with
  | nil => simp [greedyCost]
  | cons l rest ih =>
      have hl : 0 ≤ parseFloatQ l.sz := hsz l (List.mem_cons_self _ _)
      have hrest : ∀ x ∈ rest, 0 ≤ parseFloatQ x.sz := fun x hx => hsz x (List.mem_cons_of_mem _ hx)
      simp only [greedyCost, min_eq_left hl, zero_mul, zero_add, sub_zero, ih hrest]

theorem walk_cost (levels : List L2Level) (remaining totalCost : ℚ)
    (h : 0 ≤ remaining) (hsz : ∀ l ∈ levels, 0 ≤ parseFloatQ l.sz) :
    (walk levels remaining totalCost).2 = totalCost + greedyCost levels remaining := by
  induction levels generalizing remaining totalCost with
  | nil => simp [walk, greedyCost]
  | cons l rest ih =>
      have hrest : ∀ x ∈ rest, 0 ≤ parseFloatQ x.sz := fun x hx => hsz x (List.mem_cons_of_mem _ hx)
      simp only [walk, greedyCost]
      set fillQty := min remaining (parseFloatQ l.sz) with hfq
      by_cases hbr : remaining - fillQty ≤ 0
      · rw [if_pos hbr]
        have hz : remaining - fillQty = 0 := by
          have : fillQty ≤ remaining := min_le_left _ _
          linarith
        show totalCost + fillQty * parseFloatQ l.px = _
        rw [hz, greedyCost_of_zero rest hrest]
        ring
      · rw [if_neg hbr]
        have h1 : 0 ≤ remaining - fillQty := by
          have : fillQty ≤ remaining := min_le_left _ _
          linarith
        rw [ih _ _ h1 hrest]
        ring

end FillSimulator


theorem FillSimulator.simulate_eq_none_iff (book : L2Book) (side : Side) (size : ℚ)
    (h0 : 0 ≤ size) (hsz : ∀ l ∈ sideLevels book side, 0 ≤ parseFloatQ l.sz) :
    FillSimulator.simulate book side size = none ↔ sumSz (sideLevels book side) < size := by
  have hrem := FillSimulator.walk_remaining (sideLevels book side) size 0 h0 hsz
  simp only [FillSimulator.simulate]
  constructor
  · intro hnone
    by_contra hge
    push_neg at hge
    have hle : (FillSimulator.walk (sideLevels book side) size 0).1 ≤ 0 := by
      rw [hrem]
      have : size - sumSz (sideLevels book side) ≤ 0 := by linarith
      simp [max_eq_left this]
    rw [if_neg (not_lt.mpr hle)] at hnone
    exact Option.some_ne_none _ hnone
  · intro hlt
    have hgt : (FillSimulator.walk (sideLevels book side) size 0).1 > 0 := by
      rw [hrem]
      have h1 : 0 < size - sumSz (sideLevels book side) := by linarith
      simp [max_eq_right (le_of_lt h1), h1]
    rw [if_pos hgt]

theorem FillSimulator.simulate_some (book : L2Book) (side : Side) (size : ℚ)
    (r : SimulationResult) (hr : FillSimulator.simulate book side size = some r) :
    r.filledSize = size ∧
      r.totalCost = (FillSimulator.walk (sideLevels book side) size 0).2 ∧
      r.avgPrice = r.totalCost / size := by
  simp only [FillSimulator.simulate] at hr
  by_cases hgt : (FillSimulator.walk (sideLevels book side) size 0).1 > 0
  · rw [if_pos hgt] at hr
    exact absurd hr (Option.noConfusion)
  · rw [if_neg hgt] at hr
    injection hr with hr
    subst hr
    exact ⟨rfl, rfl, rfl⟩

/-- C2: for positive requested size and a book whose walked side has
nonnegative level sizes, `simulate` returns `none` (the InsufficientDepth
outcome) exactly when the walked side's cumulative size is below the
requested size; otherwise the result fills the full size with
`avg_price = total_cost / size`, `total_cost` being the order-respecting
greedy consumption of `min(remaining, level.sz)` at each level's price. -/
theorem C2_simulate_characterization (book : L2Book) (side : Side) (size : ℚ)
    (hpos : 0 < size)
    (hsz : ∀ l ∈ sideLevels book side, 0 ≤ parseFloatQ l.sz) :
    (FillSimulator.simulate book side size = none ↔ sumSz (sideLevels book side) < size) ∧
      (∀ r, FillSimulator.simulate book side size = some r →
        r.filledSize = size ∧ r.avgPrice = r.totalCost / size ∧
          r.totalCost = greedyCost (sideLevels book side) size) := by
  refine ⟨FillSimulator.simulate_eq_none_iff book side size (le_of_lt hpos) hsz, ?_⟩
  intro r hr
  obtain ⟨hfs, htc, hav⟩ := FillSimulator.simulate_some book side size r hr
  have hcost := FillSimulator.walk_cost (sideLevels book side) size 0 (le_of_lt hpos) hsz
  exact ⟨hfs, hav, by rw [htc, hcost, zero_add]⟩

/-- The book used in the C2 witness: asks `[(431.50, 5), (432.00, 10)]`
(spec §8 scenario S1). -/
def witnessBookS1 : L2Book :=
  { coin := "TSLA"
    bids := [⟨"431.00", "4"⟩]
    asks := [⟨"431.50", "5"⟩, ⟨"432.00", "10"⟩] }

theorem C2_witness :
    (0 : ℚ) < 3 ∧
      (FillSimulator.simulate witnessBookS1 .buy 3 = none ↔
        sumSz (sideLevels witnessBookS1 .buy) < 3) := by
  refine ⟨by norm_num, ?_⟩
  exact (C2_simulate_characterization witnessBookS1 .buy 3 (by norm_num)
    (by
      intro l hl
      simp only [sideLevels, witnessBookS1, List.mem_cons, List.not_mem_nil,
        or_false] at hl
      rcases hl with rfl | rfl <;> simp +decide [parseFloatQ, digitsVal])).1

/-- A merged price level (`AggregatedLevel` in `src/market/types.ts`):
`{px, sz, sources: [(coin, sz)]}`. -/
structure AggregatedLevel where
  px : ℚ
  sz : ℚ
  sources : List (String × ℚ)
deriving DecidableEq, Repr

inductive SortDir where
  | asc
  | desc
deriving DecidableEq, Repr

/-- Inserting one level of one market's book into the price map of
`BookAggregator.mergeLevels` (`aggregator.ts` lines 145-160).  The map is
keyed by the *original decimal string* of the price; a fresh key is
appended at the end (JS `Map` insertion order), an existing entry gets
`sz += parseFloat(level.sz)` together with a pushed `(coin, sz)` source. -/
def insertLevelEntry (m : List (String × AggregatedLevel)) (coin : String)
    (level : L2Level) : List (String × AggregatedLevel) :=
  match m with
  | [] => [(level.px,
      { px := parseFloatQ level.px
        sz := parseFloatQ level.sz
        sources := [(coin, parseFloatQ level.sz)] })]
  | (k, e) :: rest =>
      if k = level.px then
        (k, { e with
              sz := e.sz + parseFloatQ level.sz
              sources := e.sources ++ [(coin, parseFloatQ level.sz)] }) :: rest
      else (k, e) :: insertLevelEntry rest coin level

/-- The double loop of `mergeLevels` filling the price map: iterate over the
per-market sources in order, and over each one's levels in order. -/
def buildPriceMap (sources : List (String × List L2Level)) :
    List (String × AggregatedLevel) :=
  sources.foldl
    (fun m cl => cl.2.foldl (fun m2 level => insertLevelEntry m2 cl.1 level) m) []

/-- The sort step of `mergeLevels` (`aggregator.ts` lines 162-165); JS
`Array.sort` with comparator `a.px - b.px` (asc) / `b.px - a.px` (desc) is a
stable sort, modelled by the stable `List.insertionSort`. -/
def sortLevels (dir : SortDir) (levels : List AggregatedLevel) : List AggregatedLevel :=
  match dir with
  | .asc => levels.insertionSort (fun a b => a.px ≤ b.px)
  | .desc => levels.insertionSort (fun a b => b.px ≤ a.px)

/-- The depth-truncation loop of `mergeLevels` (`aggregator.ts`
lines 171-178): keep levels until the cumulative size reaches the target. -/
def trimToDepth (levels : List AggregatedLevel) (target cumulative : ℚ) :
    List AggregatedLevel :=
  match levels with
  | [] => []
  | l :: rest =>
      let c := cumulative + l.sz
      if c ≥ target then [l] else l :: trimToDepth rest target c

/-- `BookAggregator.mergeLevels` (`aggregator.ts` lines 135-179). -/
def mergeLevels (sources : List (String × List L2Level)) (dir : SortDir)
    (targetDepth : Option ℚ) : List AggregatedLevel :=
  let merged := sortLevels dir ((buildPriceMap sources).map (·.2))
  match targetDepth with
  | none => merged
  | some d => if d ≤ 0 then merged else trimToDepth merged d 0

/-- One market's successfully fetched book (`MarketBookSnapshot` in
`aggregator.ts`). -/
structure MarketBookSnapshot where
  coin : String
  bids : List L2Level
  asks : List L2Level
deriving DecidableEq, Repr

/-- `AggregatedBook` (`src/market/types.ts`). -/
structure AggregatedBook where
  baseAsset : String
  bids : List AggregatedLevel
  asks : List AggregatedLevel
  marketBooks : List MarketBookSnapshot
  timestamp : ℕ
deriving DecidableEq, Repr

namespace BookAggregator

/-- `BookAggregator.aggregate` (`aggregator.ts` lines 30-75) after the
parallel fetch: `books` is the list of books that were fetched
successfully (failed fetches are absent), in market order. -/
def aggregate (baseAsset : String) (books : List MarketBookSnapshot)
    (timestamp : ℕ) : AggregatedBook :=
  if books.isEmpty then
    { baseAsset := baseAsset, bids := [], asks := [], marketBooks := [], timestamp := timestamp }
  else
    { baseAsset := baseAsset
      bids := mergeLevels (books.map fun b => (b.coin, b.bids)) .desc none
      asks := mergeLevels (books.map fun b => (b.coin, b.asks)) .asc none
      marketBooks := books
      timestamp := timestamp }

/-- `BookAggregator.aggregateForOrder` (`aggregator.ts` lines 81-129):
the active side is truncated at the cumulative depth `max 0 size`. -/
def aggregateForOrder (baseAsset : String) (books : List MarketBookSnapshot)
    (side : Side) (size : ℚ) (timestamp : ℕ) : AggregatedBook :=
  if books.isEmpty then
    { baseAsset := baseAsset, bids := [], asks := [], marketBooks := [], timestamp := timestamp }
  else
    let targetDepth := max 0 size
    { baseAsset := baseAsset
      bids := mergeLevels (books.map fun b => (b.coin, b.bids)) .desc
        (match side with | .buy => none | .sell => some targetDepth)
      asks := mergeLevels (books.map fun b => (b.coin, b.asks)) .asc
        (match side with | .buy => some targetDepth | .sell => none)
      marketBooks := books
      timestamp := timestamp }

end BookAggregator

/-- The aggregated-level invariant of spec §3/§8:
the level's total size is the sum of its per-source contributions. -/
def levelConsistent (e : AggregatedLevel) : Prop :=
  e.sz = (e.sources.map (fun s => s.2)).sum

theorem insertLevelEntry_consistent (m : List (String × AggregatedLevel))
    (coin : String) (level : L2Level)
    (h : ∀ p ∈ m, levelConsistent p.2) :
    ∀ p ∈ insertLevelEntry m coin level, levelConsistent p.2 := by
  induction m with
  | nil =>
      intro p hp
      simp only [insertLevelEntry, List.mem_singleton] at hp
      subst hp
      simp [levelConsistent]
  | cons q rest ih =>
      obtain ⟨k, e⟩ := q
      intro p hp
      simp only [insertLevelEntry] at hp
      by_cases hk : k = level.px
      · rw [if_pos hk] at hp
        rcases List.mem_cons.mp hp with rfl | hmem
        · have he : levelConsistent e := h (k, e) (List.mem_cons_self _ _)
          simp only [levelConsistent] at he ⊢
          simp [he]
        · exact h p (List.mem_cons_of_mem _ hmem)
      · rw [if_neg hk] at hp
        rcases List.mem_cons.mp hp with rfl | hmem
        · exact h (k, e) (List.mem_cons_self _ _)
        · exact ih (fun q hq => h q (List.mem_cons_of_mem _ hq)) p hmem

theorem foldl_insert_consistent (levels : List L2Level) (coin : String)
    (m : List (String × AggregatedLevel))
    (h : ∀ p ∈ m, levelConsistent p.2) :
    ∀ p ∈ levels.foldl (fun m2 level => insertLevelEntry m2 coin level) m,
      levelConsistent p.2 := by
  induction levels generalizing m with
  | nil => simpa using h
  | cons l rest ih =>
      simp only [List.foldl_cons]
      exact ih _ (insertLevelEntry_consistent m coin l h)

theorem buildPriceMap_consistent (sources : List (String × List L2Level)) :
    ∀ p ∈ buildPriceMap sources, levelConsistent p.2 := by
  unfold buildPriceMap
  generalize hm : ([] : List (String × AggregatedLevel)) = m
  have h : ∀ p ∈ m, levelConsistent p.2 := by rw [← hm]; simp
  clear hm
  induction sources generalizing m with
  | nil => simpa using h
  | cons cl rest ih =>
      simp only [List.foldl_cons]
      exact ih _ (foldl_insert_consistent cl.2 cl.1 m h)

theorem trimToDepth_subset (levels : List AggregatedLevel) (target cumulative : ℚ) :
    ∀ e ∈ trimToDepth levels target cumulative, e ∈ levels := by
  induction levels generalizing cumulative with
  | nil => simp [trimToDepth]
  | cons l rest ih =>
      intro e he
      simp only [trimToDepth] at he
      by_cases hc : cumulative + l.sz ≥ target
      · rw [if_pos hc] at he
        rcases List.mem_singleton.mp he with rfl
        exact List.mem_cons_self _ _
      · rw [if_neg hc] at he
        rcases List.mem_cons.mp he with rfl | hmem
        · exact List.mem_cons_self _ _
        · exact List.mem_cons_of_mem _ (ih _ e hmem)

theorem mem_sortLevels (dir : SortDir) (levels : List AggregatedLevel)
    (e : AggregatedLevel) : e ∈ sortLevels dir levels ↔ e ∈ levels := by
  cases dir <;> simp [sortLevels, List.mem_insertionSort]

theorem mergeLevels_consistent (sources : List (String × List L2Level))
    (dir : SortDir) (targetDepth : Option ℚ) :
    ∀ e ∈ mergeLevels sources dir targetDepth, levelConsistent e := by
  intro e he
  have hmerged : ∀ x ∈ sortLevels dir ((buildPriceMap sources).map (·.2)),
      levelConsistent x := by
    intro x hx
    rw [mem_sortLevels] at hx
    obtain ⟨p, hp, rfl⟩ := List.mem_map.mp hx
    exact buildPriceMap_consistent sources p hp
  rcases targetDepth with _ | d
  · simp only [mergeLevels] at he
    exact hmerged e he
  · simp only [mergeLevels] at he
    by_cases hd : d ≤ 0
    · rw [if_pos hd] at he
      exact hmerged e he
    · rw [if_neg hd] at he
      exact hmerged e (trimToDepth_subset _ d 0 e he)

/-- C3: every level of the merged bids and asks produced by both
`BookAggregator.aggregate` and `BookAggregator.aggregateForOrder`
satisfies `sum(sources.size) = total_size` (exactly, in the exact-rational
model). -/
theorem C3_aggregated_level_invariant (baseAsset : String)
    (books : List MarketBookSnapshot) (timestamp : ℕ) (side : Side) (size : ℚ) :
    (∀ lvl ∈ (BookAggregator.aggregate baseAsset books timestamp).bids, levelConsistent lvl) ∧
      (∀ lvl ∈ (BookAggregator.aggregate baseAsset books timestamp).asks, levelConsistent lvl) ∧
      (∀ lvl ∈ (BookAggregator.aggregateForOrder baseAsset books side size timestamp).bids,
        levelConsistent lvl) ∧
      (∀ lvl ∈ (BookAggregator.aggregateForOrder baseAsset books side size timestamp).asks,
        levelConsistent lvl) := by
  by_cases hb : books.isEmpty
  · refine ⟨?_, ?_, ?_, ?_⟩ <;>
      · intro lvl hlvl
        simp [BookAggregator.aggregate, BookAggregator.aggregateForOrder, hb] at hlvl
  · refine ⟨?_, ?_, ?_, ?_⟩ <;>
      · intro lvl hlvl
        simp only [BookAggregator.aggregate, BookAggregator.aggregateForOrder,
          if_neg hb] at hlvl
        exact mergeLevels_consistent _ _ _ lvl hlvl

/-- Two one-sided books quoting the same ask price, used by the C3 witness
(spec §8 scenario S2 shape). -/
def witnessBooksC3 : List MarketBookSnapshot :=
  [ { coin := "xyz:TSLA", bids := [], asks := [⟨"431.50", "2"⟩] },
    { coin := "flx:TSLA", bids := [], asks := [⟨"431.50", "3"⟩] } ]

theorem C3_witness :
    (⟨parseFloatQ "431.50", parseFloatQ "2" + parseFloatQ "3",
        [("xyz:TSLA", parseFloatQ "2"), ("flx:TSLA", parseFloatQ "3")]⟩ : AggregatedLevel) ∈
        (BookAggregator.aggregate "TSLA" witnessBooksC3 0).asks ∧
      levelConsistent ⟨parseFloatQ "431.50", parseFloatQ "2" + parseFloatQ "3",
        [("xyz:TSLA", parseFloatQ "2"), ("flx:TSLA", parseFloatQ "3")]⟩ := by
  have hmem : (⟨parseFloatQ "431.50", parseFloatQ "2" + parseFloatQ "3",
      [("xyz:TSLA", parseFloatQ "2"), ("flx:TSLA", parseFloatQ "3")]⟩ : AggregatedLevel) ∈
      (BookAggregator.aggregate "TSLA" witnessBooksC3 0).asks := by
    simp +decide [BookAggregator.aggregate, witnessBooksC3, mergeLevels, buildPriceMap,
      insertLevelEntry, sortLevels, List.insertionSort, List.orderedInsert]
  exact ⟨hmem,
    (C3_aggregated_level_invariant "TSLA" witnessBooksC3 0 .buy 1).2.1 _ hmem⟩

/-- `SplitAllocation` (`src/router/types.ts`). -/
structure SplitAllocation where
  market : PerpMarket
  size : ℚ
  estimatedCost : ℚ
  estimatedAvgPrice : ℚ
  proportion : ℚ
deriving DecidableEq, Repr

/-- `SplitResult` (`src/router/types.ts`). -/
structure SplitResult where
  allocations : List SplitAllocation
  totalSize : ℚ
  totalCost : ℚ
  aggregateAvgPrice : ℚ
  aggregatePriceImpactBps : ℚ
  midPrice : ℚ
deriving DecidableEq, Repr

/-- Sum of a rational-valued projection over a list. -/
def sumBy {α : Type} (f : α → ℚ) (l : List α) : ℚ :=
  (l.map f).sum

/-- Descending-by-size comparison used by the splitter's two
`sort((a, b) => b.size - a.size)` calls (`splitter.ts` lines 123 and
router line 260). -/
def sizeDescRel (a b : SplitAllocation) : Prop := b.size ≤ a.size

instance : DecidableRel sizeDescRel :=
  fun a b => inferInstanceAs (Decidable (b.size ≤ a.size))

instance : IsTotal SplitAllocation sizeDescRel :=
  ⟨fun a b => le_total b.size a.size⟩

instance : IsTrans SplitAllocation sizeDescRel :=
  ⟨fun _ _ _ h1 h2 => le_trans h2 h1⟩

namespace SplitOptimizer

/-- The per-market fill accumulator of `SplitOptimizer.optimize`
(`splitter.ts` line 32): a JS `Map` from coin to `{size, cost}`,
modelled as an insertion-ordered association list. -/
def updateFill (fills : List (String × (ℚ × ℚ))) (coin : String)
    (dSize dCost : ℚ) : List (String × (ℚ × ℚ)) :=
  match fills with
  | [] => [(coin, (dSize, dCost))]
  | (c, e) :: rest =>
      if c = coin then (c, (e.1 + dSize, e.2 + dCost)) :: rest
      else (c, e) :: updateFill rest coin dSize dCost

/-- The inner source loop of `optimize` (`splitter.ts` lines 43-55):
distribute a level's fill across its sources proportionally, capped by each
source's own quoted size, accumulating per-market size and cost. -/
def processSources (sources : List (String × ℚ)) (fillFromLevel sourceTotal px : ℚ)
    (fills : List (String × (ℚ × ℚ))) : List (String × (ℚ × ℚ)) × ℚ :=
  sources.foldl
    (fun acc s =>
      let sourceFill := min (fillFromLevel * (s.2 / sourceTotal)) s.2
      (updateFill acc.1 s.1 sourceFill (sourceFill * px), acc.2 + sourceFill))
    (fills, 0)

/-- The level loop of `optimize` (`splitter.ts` lines 36-58). -/
def walkLevels (levels : List AggregatedLevel) (remaining : ℚ)
    (fills : List (String × (ℚ × ℚ))) : List (String × (ℚ × ℚ)) × ℚ :=
  match levels with
  | [] => (fills, remaining)
  | level :: rest =>
      if remaining ≤ 0 then (fills, remaining)
      else
        let fillFromLevel := min remaining level.sz
        let sourceTotal := sumBy (fun s => s.2) level.sources
        let pr := processSources level.sources fillFromLevel sourceTotal level.px fills
        walkLevels rest (remaining - pr.2) pr.1

/-- `SplitOptimizer.filterDust` (`splitter.ts` lines 116-144): sort
descending by size (stable), keep the primary, absorb each further
allocation below `minSize` into the primary at the primary's (original)
average price, then recompute the primary's average. -/
def filterDust (allocations : List SplitAllocation) (minSize : ℚ) :
    List SplitAllocation :=
  if allocations.length ≤ 1 then allocations
  else
    match List.insertionSort sizeDescRel allocations with
    | [] => []
    | primary :: rest =>
        let dust := rest.filter fun a => decide (a.size < minSize)
        let kept := rest.filter fun a => decide (minSize ≤ a.size)
        let newSize := primary.size + sumBy (fun a => a.size) dust
        let newCost := primary.estimatedCost +
          sumBy (fun a => a.size * primary.estimatedAvgPrice) dust
        let primary2 : SplitAllocation :=
          { primary with
            size := newSize
            estimatedCost := newCost
            estimatedAvgPrice := if newSize > 0 then newCost / newSize
              else primary.estimatedAvgPrice }
        primary2 :: kept

/-- Building one raw allocation from an accumulated per-market fill
(`splitter.ts` lines 63-76): markets missing from the lookup or with a
non-positive accumulated size are skipped. -/
def rawAllocOf (markets : String → Option PerpMarket) (cf : String × (ℚ × ℚ)) :
    Option SplitAllocation :=
  match markets cf.1 with
  | none => none
  | some market =>
      if cf.2.1 ≤ 0 then none
      else some
        { market := market
          size := cf.2.1
          estimatedCost := cf.2.2
          estimatedAvgPrice := cf.2.2 / cf.2.1
          proportion := 0 }

/-- `SplitOptimizer.optimize` (`splitter.ts` lines 20-110).  The market
lookup is the JS `Map` interface (`markets.get(coin)`). -/
def optimize (book : AggregatedBook) (side : Side) (size : ℚ)
    (markets : String → Option PerpMarket) (minAllocationSize : ℚ := 1/1000) :
    Option SplitResult :=
  let levels := match side with | .buy => book.asks | .sell => book.bids
  if levels.isEmpty then none
  else
    let wr := walkLevels levels size []
    if wr.2 > size * (1/1000) then none
    else
      let rawAllocations : List SplitAllocation :=
        wr.1.filterMap (rawAllocOf markets)
      let filtered := filterDust rawAllocations minAllocationSize
      if filtered.isEmpty then none
      else
        let totalSize := sumBy (fun a => a.size) filtered
        let totalCost := sumBy (fun a => a.estimatedCost) filtered
        let withProps := filtered.map fun a => { a with proportion := a.size / totalSize }
        let bestBid := match book.bids with | [] => 0 | l :: _ => l.px
        let bestAsk := match book.asks with | [] => 0 | l :: _ => l.px
        let midPrice := if bestBid > 0 ∧ bestAsk > 0 then (bestBid + bestAsk) / 2
          else if bestBid ≠ 0 then bestBid else bestAsk
        let aggregateAvgPrice := totalCost / totalSize
        let aggregatePriceImpactBps := if midPrice > 0 then
          |aggregateAvgPrice - midPrice| / midPrice * 10000 else 0
        some
          { allocations := withProps
            totalSize := totalSize
            totalCost := totalCost
            aggregateAvgPrice := aggregateAvgPrice
            aggregatePriceImpactBps := aggregatePriceImpactBps
            midPrice := midPrice }

end SplitOptimizer

theorem sumBy_filter_split {α : Type} (l : List α) (p : α → Bool) (f : α → ℚ) :
    sumBy f (l.filter p) + sumBy f (l.filter fun a => !(p a)) = sumBy f l := by
  induction l with
  | nil => simp [sumBy]
  | cons x rest ih =>
      simp only [sumBy] at ih
      cases hx : p x <;> simp [sumBy, List.filter_cons, hx] <;> linarith

theorem filterDust_perm_shape (allocations : List SplitAllocation)
    (h : ¬ allocations.length ≤ 1) :
    ∃ primary rest, List.insertionSort sizeDescRel allocations = primary :: rest := by
  match hs : List.insertionSort sizeDescRel allocations with
  | [] =>
      exfalso
      have hlen := (List.perm_insertionSort sizeDescRel allocations).length_eq
      rw [hs] at hlen
      simp at hlen
      rw [← hlen] at h
      simp at h
  | primary :: rest => exact ⟨primary, rest, rfl⟩

/-- C6 (amended): the dust-redistribution step `SplitOptimizer.filterDust`
preserves the total allocation size exactly, but not the total estimated
cost: the output cost total differs from the input cost total by exactly
`Σ_dust (size · primary_avg − cost)`, the result of re-pricing each absorbed
dust allocation at the primary's original average price. -/
theorem C6_filterDust_totals (allocations : List SplitAllocation) (minSize : ℚ) :
    sumBy (fun a => a.size) (SplitOptimizer.filterDust allocations minSize) =
      sumBy (fun a => a.size) allocations ∧
    (∀ primary rest, 2 ≤ allocations.length →
      List.insertionSort sizeDescRel allocations = primary :: rest →
      sumBy (fun a => a.estimatedCost) (SplitOptimizer.filterDust allocations minSize) =
        sumBy (fun a => a.estimatedCost) allocations +
          sumBy (fun a => a.size * primary.estimatedAvgPrice - a.estimatedCost)
            (rest.filter fun a => decide (a.size < minSize))) := by
  constructor
  · by_cases h : allocations.length ≤ 1
    · simp [SplitOptimizer.filterDust, h]
    · obtain ⟨primary, rest, hs⟩ := filterDust_perm_shape allocations h
      have hperm : (primary :: rest).Perm allocations := by
        rw [← hs]; exact List.perm_insertionSort sizeDescRel allocations
      have hsum : sumBy (fun a => a.size) (primary :: rest) =
          sumBy (fun a => a.size) allocations := (hperm.map _).sum_eq
      have hpart := sumBy_filter_split rest (fun a => decide (a.size < minSize))
        (fun a => a.size)
      have hcompl : (rest.filter fun a => !(decide (a.size < minSize))) =
          (rest.filter fun a => decide (minSize ≤ a.size)) := by
        congr 1
        funext a
        by_cases hc : a.size < minSize
        · simp [hc, not_le.mpr hc]
        · simp [hc, not_lt.mp hc]
      rw [hcompl] at hpart
      simp only [SplitOptimizer.filterDust, if_neg h, hs]
      simp only [sumBy, List.map_cons, List.sum_cons] at hsum ⊢
      simp only [sumBy] at hpart
      linarith
  · intro primary rest hlen hs
    have h : ¬ allocations.length ≤ 1 := by omega
    have hperm : (primary :: rest).Perm allocations := by
      rw [← hs]; exact List.perm_insertionSort sizeDescRel allocations
    have hsum : sumBy (fun a => a.estimatedCost) (primary :: rest) =
        sumBy (fun a => a.estimatedCost) allocations := (hperm.map _).sum_eq
    have hpart := sumBy_filter_split rest (fun a => decide (a.size < minSize))
      (fun a => a.estimatedCost)
    have hcompl : (rest.filter fun a => !(decide (a.size < minSize))) =
        (rest.filter fun a => decide (minSize ≤ a.size)) := by
      congr 1
      funext a
      by_cases hc : a.size < minSize
      · simp [hc, not_le.mpr hc]
      · simp [hc, not_lt.mp hc]
    rw [hcompl] at hpart
    simp only [SplitOptimizer.filterDust, if_neg h, hs]
    have hsplit : sumBy (fun a => a.size * primary.estimatedAvgPrice - a.estimatedCost)
        (rest.filter fun a => decide (a.size < minSize)) =
        sumBy (fun a => a.size * primary.estimatedAvgPrice)
          (rest.filter fun a => decide (a.size < minSize)) -
        sumBy (fun a => a.estimatedCost)
          (rest.filter fun a => decide (a.size < minSize)) := by
      simp only [sumBy]
      induction (rest.filter fun a => decide (a.size < minSize)) with
      | nil => simp
      | cons x xs ih =>
          simp only [List.map_cons, List.sum_cons, ih]
          ring
    simp only [sumBy, List.map_cons, List.sum_cons] at hsum ⊢
    simp only [sumBy] at hpart hsplit
    linarith

/-- Fixture markets (shapes from `test/fixtures/markets.ts`). -/
def marketXYZ : PerpMarket :=
  { baseAsset := "TSLA", coin := "xyz:TSLA", assetIndex := 110000,
    dexName := "xyz", collateral := "USDC", isNative := false,
    funding := some "0.00000625" }

def marketFLX : PerpMarket :=
  { baseAsset := "TSLA", coin := "flx:TSLA", assetIndex := 120000,
    dexName := "flx", collateral := "USDH", isNative := false,
    funding := some "-0.0002" }

/-- Input allocations for the C6 counterexample: a dust allocation priced
far from the primary's average. -/
def C6allocsIn : List SplitAllocation :=
  [ ⟨marketXYZ, 2, 200, 100, 0⟩, ⟨marketFLX, 1, 500, 500, 0⟩ ]

theorem C6_counterexample :
    sumBy (fun a => a.estimatedCost) (SplitOptimizer.filterDust C6allocsIn (3/2)) ≠
      sumBy (fun a => a.estimatedCost) C6allocsIn := by
  norm_num [C6allocsIn, SplitOptimizer.filterDust, sizeDescRel, List.insertionSort,
    List.orderedInsert, sumBy, marketXYZ, marketFLX]

theorem C6_witness :
    sumBy (fun a => a.size) (SplitOptimizer.filterDust C6allocsIn (3/2)) =
        sumBy (fun a => a.size) C6allocsIn ∧
      sumBy (fun a => a.estimatedCost) (SplitOptimizer.filterDust C6allocsIn (3/2)) =
        sumBy (fun a => a.estimatedCost) C6allocsIn +
          sumBy (fun a => a.size *
              (⟨marketXYZ, 2, 200, 100, 0⟩ : SplitAllocation).estimatedAvgPrice -
                a.estimatedCost)
            (([⟨marketFLX, 1, 500, 500, 0⟩] : List SplitAllocation).filter
              fun a => decide (a.size < (3/2 : ℚ))) :=
  ⟨(C6_filterDust_totals C6allocsIn (3/2)).1,
   (C6_filterDust_totals C6allocsIn (3/2)).2 ⟨marketXYZ, 2, 200, 100, 0⟩
     [⟨marketFLX, 1, 500, 500, 0⟩] (by norm_num [C6allocsIn])
     (by norm_num [C6allocsIn, List.insertionSort, List.orderedInsert, sizeDescRel])⟩

inductive TimeInForce where
  | Alo
  | Ioc
  | Gtc
deriving DecidableEq, Repr

/-- `ExecutionPlan` (`src/router/types.ts`).  The source serializes `size`
with `toString` and `price` with `toFixed(6)`; both are exact here. -/
structure ExecutionPlan where
  market : PerpMarket
  side : Side
  size : ℚ
  price : ℚ
  tif : TimeInForce
  slippage : ℚ
deriving DecidableEq, Repr

/-- `Quote` (`src/router/types.ts`). -/
structure Quote where
  baseAsset : String
  side : Side
  requestedSize : ℚ
  selectedMarket : PerpMarket
  estimatedAvgPrice : ℚ
  estimatedPriceImpact : ℚ
  estimatedFundingRate : ℚ
  alternativesConsidered : List MarketScore
  warnings : List String
  plan : ExecutionPlan
deriving DecidableEq, Repr

/-- The error kinds `Router.quote`/`quoteSplit` can raise
(`src/utils/errors.ts`); `internalError` models a JS runtime crash from the
non-null assertions in `router.ts` (unreachable in the proven regime). -/
inductive QuoteError where
  | noMarkets
  | marketDataUnavailable
  | insufficientLiquidity
  | internalError
deriving DecidableEq, Repr

/-- Score comparison used by `scored.sort((a, b) => a.totalScore - b.totalScore)`
with `Infinity` (here `none`) as the greatest element. -/
def optLeB : Option ℚ → Option ℚ → Bool
  | _, none => true
  | none, some _ => false
  | some a, some b => decide (a ≤ b)

def scoreRel (a b : MarketScore) : Prop := optLeB a.totalScore b.totalScore = true

instance : DecidableRel scoreRel :=
  fun a b => inferInstanceAs (Decidable (_ = true))

theorem optLeB_refl (a : Option ℚ) : optLeB a a = true := by
  cases a <;> simp [optLeB]

theorem optLeB_total (a b : Option ℚ) : optLeB a b = true ∨ optLeB b a = true := by
  cases a <;> cases b <;> simp [optLeB] <;> exact le_total _ _

theorem optLeB_trans (a b c : Option ℚ) (h1 : optLeB a b = true)
    (h2 : optLeB b c = true) : optLeB a c = true := by
  cases a <;> cases b <;> cases c <;> simp [optLeB] at * <;> linarith

theorem optLeB_none_left (x : Option ℚ) (h : optLeB none x = true) : x = none := by
  cases x <;> simp [optLeB] at *

instance : IsTotal MarketScore scoreRel :=
  ⟨fun a b => optLeB_total a.totalScore b.totalScore⟩

instance : IsTrans MarketScore scoreRel :=
  ⟨fun _ _ _ h1 h2 => optLeB_trans _ _ _ h1 h2⟩

namespace Router

/-- The score entry the router pushes for a market whose book lacks depth
(`router.ts` lines 76-84): all-`Infinity` sentinel. -/
def failedScore (market : PerpMarket) : MarketScore :=
  { market := market
    priceImpact := none
    fundingRate := 0
    collateralMatch := false
    totalScore := none
    swapCostBps := none
    reason := some "Insufficient book depth" }

/-- The snapshots surviving the book fetch in `Router.fetchSnapshots`
(`router.ts` lines 310-353): `pairs` carries each registered market with
its fetch outcome (`none` = rejected or timed out). -/
def snapshotsOf (pairs : List (PerpMarket × Option L2Book)) :
    List (PerpMarket × L2Book) :=
  pairs.filterMap fun p => p.2.map fun b => (p.1, b)

/-- Simulate-and-score for one snapshot (`router.ts` lines 73-88). -/
def scoreOfSnap (side : Side) (size : ℚ) (userCollateral : List String)
    (mb : PerpMarket × L2Book) : MarketScore :=
  match FillSimulator.simulate mb.2 side size with
  | none => failedScore mb.1
  | some sim => MarketScorer.score sim mb.1 side userCollateral none

def scoredOf (snapshots : List (PerpMarket × L2Book)) (side : Side) (size : ℚ)
    (userCollateral : List String) : List MarketScore :=
  snapshots.map (scoreOfSnap side size userCollateral)

/-- `Router.quote` (`router.ts` lines 47-143, the timeout-aware version). -/
def quote (baseAsset : String) (pairs : List (PerpMarket × Option L2Book))
    (side : Side) (size : ℚ) (userCollateral : List String) (slippage : ℚ) :
    Except QuoteError Quote :=
  if pairs.isEmpty then .error .noMarkets
  else
    let snapshots := snapshotsOf pairs
    if snapshots.isEmpty then .error .marketDataUnavailable
    else
      let scored := scoredOf snapshots side size userCollateral
      let sorted := List.insertionSort scoreRel scored
      match sorted with
      | [] => .error .internalError
      | best :: _ =>
          if best.totalScore = none then .error .insufficientLiquidity
          else
            match snapshots.find? fun s => decide (s.1.coin = best.market.coin) with
            | none => .error .marketDataUnavailable
            | some mb =>
                match FillSimulator.simulate mb.2 side size with
                | none => .error .internalError
                | some sim =>
                    let slippagePrice := match side with
                      | .buy => sim.avgPrice * (1 + slippage)
                      | .sell => sim.avgPrice * (1 - slippage)
                    .ok
                      { baseAsset := baseAsset
                        side := side
                        requestedSize := size
                        selectedMarket := best.market
                        estimatedAvgPrice := sim.avgPrice
                        estimatedPriceImpact := sim.priceImpactBps
                        estimatedFundingRate := parseFloatQ (best.market.funding.getD "0")
                        alternativesConsidered := List.insertionSort scoreRel
                          (scoredOf (snapshotsOf pairs) side size userCollateral)
                        warnings := if pairs.any fun p => p.2.isNone then
                          ["Partial market data"] else []
                        plan :=
                          { market := best.market
                            side := side
                            size := size
                            price := slippagePrice
                            tif := .Ioc
                            slippage := slippage } }

end Router

namespace Router

theorem snapshotsOf_eq_nil_iff (pairs : List (PerpMarket × Option L2Book)) :
    snapshotsOf pairs = [] ↔ ∀ p ∈ pairs, p.2 = none := by
  simp only [snapshotsOf, List.filterMap_eq_nil_iff]
  constructor
  · intro h p hp
    have := h p hp
    cases hb : p.2
    · rfl
    · rw [hb] at this; simp at this
  · intro h p hp
    rw [h p hp]
    rfl

theorem mem_snapshotsOf (pairs : List (PerpMarket × Option L2Book))
    (m : PerpMarket) (b : L2Book) :
    (m, b) ∈ snapshotsOf pairs ↔ (m, some b) ∈ pairs := by
  simp only [snapshotsOf, List.mem_filterMap]
  constructor
  · rintro ⟨⟨pm, pb⟩, hp, hpb⟩
    cases pb with
    | none => simp at hpb
    | some bb =>
        simp only [Option.map_some', Option.some.injEq, Prod.mk.injEq] at hpb
        obtain ⟨h1, h2⟩ := hpb
        subst h1
        subst h2
        exact hp
  · intro hp
    exact ⟨(m, some b), hp, rfl⟩

theorem scoreOfSnap_market (side : Side) (size : ℚ) (uc : List String)
    (mb : PerpMarket × L2Book) : (scoreOfSnap side size uc mb).market = mb.1 := by
  unfold scoreOfSnap
  cases FillSimulator.simulate mb.2 side size <;> simp [failedScore, MarketScorer.score]

theorem scoreOfSnap_none_iff (side : Side) (size : ℚ) (uc : List String)
    (mb : PerpMarket × L2Book) :
    (scoreOfSnap side size uc mb).totalScore = none ↔
      FillSimulator.simulate mb.2 side size = none := by
  unfold scoreOfSnap
  cases h : FillSimulator.simulate mb.2 side size <;>
    simp [failedScore, MarketScorer.score]

theorem sorted_head_min (scored : List MarketScore) (best : MarketScore)
    (rest : List MarketScore)
    (hs : List.insertionSort scoreRel scored = best :: rest) :
    ∀ t ∈ scored, scoreRel best t := by
  intro t ht
  have hperm := List.perm_insertionSort scoreRel scored
  have hmem : t ∈ List.insertionSort scoreRel scored := by
    rw [List.mem_insertionSort]; exact ht
  rw [hs] at hmem
  rcases List.mem_cons.mp hmem with rfl | hmem
  · exact optLeB_refl _
  · have hsorted := List.sorted_insertionSort scoreRel scored
    rw [hs] at hsorted
    exact (List.sorted_cons.mp hsorted).1 t hmem

theorem snapshots_coin_sublist (pairs : List (PerpMarket × Option L2Book)) :
    ((snapshotsOf pairs).map fun s => s.1.coin).Sublist
      (pairs.map fun p => p.1.coin) := by
  induction pairs with
  | nil => simp [snapshotsOf]
  | cons p rest ih =>
      cases hb : p.2 with
      | none =>
          simp only [snapshotsOf, List.filterMap_cons, hb, Option.map_none,
            List.map_cons]
          exact (ih).cons _
      | some b =>
          simp only [snapshotsOf, List.filterMap_cons, hb, Option.map_some,
            List.map_cons]
          exact (ih).cons₂ _

end Router

/-- C4: `Router.quote` on an asset with at least one registered market
fails with `MarketDataUnavailable` exactly when no book fetch succeeded,
fails with `InsufficientLiquidity` exactly when some book was fetched but
no market's book has cumulative depth ≥ size (every score is the `+∞`
sentinel), and otherwise returns a quote whose plan targets the
lowest-scoring market. -/
theorem C4_router_quote_semantics (baseAsset : String)
    (pairs : List (PerpMarket × Option L2Book)) (side : Side) (size : ℚ)
    (uc : List String) (slippage : ℚ)
    (hne : pairs ≠ [])
    (hpos : 0 < size)
    (hsz : ∀ p ∈ pairs, ∀ b : L2Book, p.2 = some b →
      ∀ l ∈ sideLevels b side, 0 ≤ parseFloatQ l.sz)
    (hnodup : (pairs.map fun p => p.1.coin).Nodup) :
    (Router.quote baseAsset pairs side size uc slippage =
        .error .marketDataUnavailable ↔ ∀ p ∈ pairs, p.2 = none) ∧
      (Router.quote baseAsset pairs side size uc slippage =
          .error .insufficientLiquidity ↔
        ((∃ p ∈ pairs, p.2 ≠ none) ∧
          ∀ p ∈ pairs, ∀ b : L2Book, p.2 = some b →
            sumSz (sideLevels b side) < size)) ∧
      (∀ q, Router.quote baseAsset pairs side size uc slippage = .ok q →
        q.plan.market = q.selectedMarket ∧
          ∃ best rest2, q.alternativesConsidered = best :: rest2 ∧
            best.market = q.selectedMarket ∧
            ∀ t ∈ Router.scoredOf (Router.snapshotsOf pairs) side size uc,
              scoreRel best t) ∧
      ((∃ p ∈ pairs, ∃ b : L2Book, p.2 = some b ∧
          size ≤ sumSz (sideLevels b side)) →
        ∃ q, Router.quote baseAsset pairs side size uc slippage = .ok q) := by
  have hpe : pairs.isEmpty = false := by
    rw [← Bool.not_eq_true]
    exact fun h => hne (List.isEmpty_iff.mp h)
  by_cases hse : Router.snapshotsOf pairs = []
  · -- no book fetch succeeded
    have hallnone : ∀ p ∈ pairs, p.2 = none :=
      (Router.snapshotsOf_eq_nil_iff pairs).mp hse
    have hq : Router.quote baseAsset pairs side size uc slippage =
        .error .marketDataUnavailable := by
      simp [Router.quote, hpe, hse]
    refine ⟨⟨fun _ => hallnone, fun _ => hq⟩, ?_, ?_, ?_⟩
    · rw [hq]
      constructor
      · intro h
        exact absurd h (by simp)
      · rintro ⟨⟨p, hp, hpn⟩, _⟩
        exact absurd (hallnone p hp) hpn
    · intro q hqq
      rw [hq] at hqq
      exact absurd hqq (by simp)
    · rintro ⟨p, hp, b, hpb, _⟩
      exact absurd (hallnone p hp) (by simp [hpb])
  · -- at least one book fetched
    have hsE : (Router.snapshotsOf pairs).isEmpty = false := by
      rw [← Bool.not_eq_true]
      exact fun h => hse (List.isEmpty_iff.mp h)
    rcases hsort : List.insertionSort scoreRel
        (Router.scoredOf (Router.snapshotsOf pairs) side size uc) with _ | ⟨best, rest⟩
    · exfalso
      have hlen := (List.perm_insertionSort scoreRel
        (Router.scoredOf (Router.snapshotsOf pairs) side size uc)).length_eq
      rw [hsort] at hlen
      simp only [List.length_nil, Router.scoredOf, List.length_map] at hlen
      exact hse (List.length_eq_zero.mp hlen.symm)
    · -- best is the head of the stable-sorted score list
      have hminimal : ∀ t ∈ Router.scoredOf (Router.snapshotsOf pairs) side size uc,
          scoreRel best t :=
        Router.sorted_head_min _ best rest hsort
      have hbest_mem : best ∈ Router.scoredOf (Router.snapshotsOf pairs) side size uc := by
        have : best ∈ List.insertionSort scoreRel
            (Router.scoredOf (Router.snapshotsOf pairs) side size uc) := by
          rw [hsort]
          exact List.mem_cons_self _ _
        rwa [List.mem_insertionSort] at this
      obtain ⟨mbb, hmbb_mem, hmbb_eq⟩ := List.mem_map.mp hbest_mem
      have hsim_iff : ∀ mb ∈ Router.snapshotsOf pairs,
          (FillSimulator.simulate mb.2 side size = none ↔
            sumSz (sideLevels mb.2 side) < size) := by
        intro mb hmb
        have hmbp : (mb.1, some mb.2) ∈ pairs := (Router.mem_snapshotsOf _ _ _).mp hmb
        exact FillSimulator.simulate_eq_none_iff mb.2 side size (le_of_lt hpos)
          (hsz _ hmbp mb.2 rfl)
      obtain ⟨s0, srest, hsnaps⟩ : ∃ s0 srest,
          Router.snapshotsOf pairs = s0 :: srest := by
        rcases h : Router.snapshotsOf pairs with _ | ⟨a, as⟩
        · exact absurd h hse
        · exact ⟨a, as, rfl⟩
      have hexists_some : ∃ p ∈ pairs, p.2 ≠ none := by
        refine ⟨(s0.1, some s0.2), ?_, by simp⟩
        apply (Router.mem_snapshotsOf pairs s0.1 s0.2).mp
        rw [hsnaps]
        exact List.mem_cons_self _ _
      by_cases hbt : best.totalScore = none
      · -- insufficient depth everywhere
        have hq : Router.quote baseAsset pairs side size uc slippage =
            .error .insufficientLiquidity := by
          simp [Router.quote, hpe, hsE, hsort, hbt]
        have hall_none : ∀ t ∈ Router.scoredOf (Router.snapshotsOf pairs) side size uc,
            t.totalScore = none := by
          intro t ht
          have hrel := hminimal t ht
          unfold scoreRel at hrel
          rw [hbt] at hrel
          exact optLeB_none_left _ hrel
        have hdepth : ∀ p ∈ pairs, ∀ b : L2Book, p.2 = some b →
            sumSz (sideLevels b side) < size := by
          intro p hp b hpb
          have hmem : ((p.1, b) : PerpMarket × L2Book) ∈ Router.snapshotsOf pairs := by
            apply (Router.mem_snapshotsOf pairs p.1 b).mpr
            rw [← hpb]
            exact hp
          have ht := hall_none _ (List.mem_map_of_mem
            (Router.scoreOfSnap side size uc) hmem)
          rw [Router.scoreOfSnap_none_iff] at ht
          exact (hsim_iff (p.1, b) hmem).mp ht
        refine ⟨?_, ?_, ?_, ?_⟩
        · rw [hq]
          constructor
          · intro h
            exact absurd h (by simp)
          · intro hall
            obtain ⟨p, hp, hpn⟩ := hexists_some
            exact absurd (hall p hp) hpn
        · rw [hq]
          exact ⟨fun _ => ⟨hexists_some, hdepth⟩, fun _ => rfl⟩
        · intro q hqq
          rw [hq] at hqq
          exact absurd hqq (by simp)
        · rintro ⟨p, hp, b, hpb, hge⟩
          exact absurd (hdepth p hp b hpb) (not_lt.mpr hge)
      · -- a market with enough depth exists: the quote succeeds
        have hbm : best.market = mbb.1 := by
          rw [← hmbb_eq]
          exact Router.scoreOfSnap_market side size uc mbb
        obtain ⟨σ, hσ⟩ : ∃ σ, FillSimulator.simulate mbb.2 side size = some σ := by
          rcases h : FillSimulator.simulate mbb.2 side size with _ | σ
          · exact absurd (by rw [← hmbb_eq, Router.scoreOfSnap_none_iff]; exact h) hbt
          · exact ⟨σ, rfl⟩
        obtain ⟨mb2, hfind⟩ : ∃ mb2, (Router.snapshotsOf pairs).find?
            (fun s => decide (s.1.coin = best.market.coin)) = some mb2 := by
          apply Option.isSome_iff_exists.mp
          rw [List.find?_isSome]
          exact ⟨mbb, hmbb_mem, by rw [hbm]; simp⟩
        have hmb2_mem : mb2 ∈ Router.snapshotsOf pairs := List.mem_of_find?_eq_some hfind
        have hmb2_coin : mb2.1.coin = best.market.coin := by
          have := List.find?_some hfind
          simpa using this
        have hcoin_nodup : ((Router.snapshotsOf pairs).map fun s => s.1.coin).Nodup :=
          hnodup.sublist (Router.snapshots_coin_sublist pairs)
        have hmb2_eq : mb2 = mbb := by
          apply List.inj_on_of_nodup_map hcoin_nodup hmb2_mem hmbb_mem
          rw [hmb2_coin, hbm]
        have hq : Router.quote baseAsset pairs side size uc slippage = .ok
            { baseAsset := baseAsset
              side := side
              requestedSize := size
              selectedMarket := best.market
              estimatedAvgPrice := σ.avgPrice
              estimatedPriceImpact := σ.priceImpactBps
              estimatedFundingRate := parseFloatQ (best.market.funding.getD "0")
              alternativesConsidered := best :: rest
              warnings := if pairs.any fun p => p.2.isNone then
                ["Partial market data"] else []
              plan :=
                { market := best.market
                  side := side
                  size := size
                  price := match side with
                    | .buy => σ.avgPrice * (1 + slippage)
                    | .sell => σ.avgPrice * (1 - slippage)
                  tif := .Ioc
                  slippage := slippage } } := by
          simp only [Router.quote, hpe, hsE, hsort, hbt, hfind, hmb2_eq, hσ,
            Bool.false_eq_true, if_false, ite_false, if_neg, Except.ok.injEq]
          simp [hbt]
          cases side <;> rfl
        refine ⟨?_, ?_, ?_, ?_⟩
        · rw [hq]
          constructor
          · intro h
            exact absurd h (by simp)
          · intro hall
            obtain ⟨p, hp, hpn⟩ := hexists_some
            exact absurd (hall p hp) hpn
        · rw [hq]
          constructor
          · intro h
            exact absurd h (by simp)
          · rintro ⟨_, hdepth⟩
            exfalso
            have hmbbp : (mbb.1, some mbb.2) ∈ pairs :=
              (Router.mem_snapshotsOf _ _ _).mp hmbb_mem
            have hlt := hdepth _ hmbbp mbb.2 rfl
            have : FillSimulator.simulate mbb.2 side size = none :=
              (hsim_iff mbb hmbb_mem).mpr hlt
            rw [hσ] at this
            exact Option.noConfusion this
        · intro q hqq
          rw [hq] at hqq
          injection hqq with hqq
          subst hqq
          exact ⟨rfl, best, rest, rfl, rfl, hminimal⟩
        · intro _
          exact ⟨_, hq⟩

/-- C4 witness fixture: one fetched market, one failed fetch. -/
def pairsC4 : List (PerpMarket × Option L2Book) :=
  [(marketXYZ, some witnessBookS1), (marketFLX, none)]

theorem C4_witness :
    pairsC4 ≠ [] ∧ (0 : ℚ) < 3 ∧
      ∃ q, Router.quote "TSLA" pairsC4 .buy 3 ["USDC"] (1/100) = .ok q := by
  have hne : pairsC4 ≠ [] := by simp [pairsC4]
  have hsz : ∀ p ∈ pairsC4, ∀ b : L2Book, p.2 = some b →
      ∀ l ∈ sideLevels b .buy, 0 ≤ parseFloatQ l.sz := by
    intro p hp b hb l hl
    simp only [pairsC4, List.mem_cons, List.not_mem_nil, or_false] at hp
    rcases hp with rfl | rfl
    · have hbw : witnessBookS1 = b := Option.some.inj hb
      subst hbw
      simp only [sideLevels, witnessBookS1, List.mem_cons, List.not_mem_nil,
        or_false] at hl
      rcases hl with rfl | rfl <;> simp +decide [parseFloatQ, digitsVal]
    · simp at hb
  have hnodup : (pairsC4.map fun p => p.1.coin).Nodup := by
    simp +decide [pairsC4, marketXYZ, marketFLX]
  refine ⟨hne, by norm_num, ?_⟩
  apply (C4_router_quote_semantics "TSLA" pairsC4 .buy 3 ["USDC"] (1/100)
    hne (by norm_num) hsz hnodup).2.2.2
  refine ⟨(marketXYZ, some witnessBookS1), by simp [pairsC4], witnessBookS1, rfl, ?_⟩
  have h5 : parseFloatQ "5" = 5 := by simp +decide [parseFloatQ, digitsVal]
  have h10 : parseFloatQ "10" = 10 := by simp +decide [parseFloatQ, digitsVal]
  simp only [sumSz, sideLevels, witnessBookS1, List.map_cons, List.map_nil,
    List.sum_cons, List.sum_nil, h5, h10]
  norm_num

/-- `CollateralRequirement` (`src/collateral/types.ts`). -/
structure CollateralRequirement where
  token : String
  amountNeeded : ℚ
  currentBalance : ℚ
  shortfall : ℚ
  swapFrom : String
  estimatedSwapCostBps : ℚ
deriving DecidableEq, Repr

/-- `CollateralPlan` (`src/collateral/types.ts`). -/
structure CollateralPlan where
  requirements : List CollateralRequirement
  totalSwapCostBps : ℚ
  swapsNeeded : Bool
  abstractionEnabled : Bool
deriving DecidableEq, Repr

/-- The empty/pending placeholder plan `Router.quoteSplit` embeds
(`router.ts` lines 190-195). -/
def emptyCollateralPlan : CollateralPlan :=
  { requirements := [], totalSwapCostBps := 0, swapsNeeded := false,
    abstractionEnabled := false }

/-- `SplitExecutionPlan` (`src/router/types.ts`). -/
structure SplitExecutionPlan where
  legs : List ExecutionPlan
  collateralPlan : CollateralPlan
  side : Side
  totalSize : ℚ
  slippage : ℚ
deriving DecidableEq, Repr

/-- `SplitQuote` (`src/router/types.ts`, flattened `extends Quote`). -/
structure SplitQuote where
  baseAsset : String
  side : Side
  requestedSize : ℚ
  selectedMarket : PerpMarket
  estimatedAvgPrice : ℚ
  estimatedPriceImpact : ℚ
  estimatedFundingRate : ℚ
  alternativesConsidered : List MarketScore
  warnings : List String
  plan : ExecutionPlan
  allocations : List SplitAllocation
  collateralPlan : CollateralPlan
  splitPlan : SplitExecutionPlan
deriving DecidableEq, Repr

namespace Router

/-- `Router.quoteSplit` (`router.ts` lines 150-308).  `markets` is the
registry's list for the asset; `books` the aggregator's successfully
fetched per-market books.  The JS `Map` built from an array keeps the last
entry for a duplicate key, hence the `reverse.find?` lookups.  The per-coin
"missing book snapshot" warning branch is omitted: every allocation's coin
comes from a fetched book's sources, so `bookMap` lookup cannot miss. -/
def quoteSplit (baseAsset : String) (markets : List PerpMarket)
    (books : List MarketBookSnapshot) (side : Side) (size : ℚ)
    (uc : List String) (slippage : ℚ) (timestamp : ℕ) :
    Except QuoteError SplitQuote :=
  if markets.isEmpty then .error .noMarkets
  else
    let marketMap : String → Option PerpMarket := fun c =>
      markets.reverse.find? fun m => decide (m.coin = c)
    let aggBook := BookAggregator.aggregateForOrder baseAsset books side size timestamp
    if aggBook.marketBooks.isEmpty then .error .marketDataUnavailable
    else
      match SplitOptimizer.optimize aggBook side size marketMap (1/1000) with
      | none => .error .insufficientLiquidity
      | some splitResult =>
          let bookMap : String → Option L2Book := fun c =>
            (aggBook.marketBooks.reverse.find? fun b => decide (b.coin = c)).map fun b =>
              { coin := b.coin, bids := b.bids, asks := b.asks }
          let scored := splitResult.allocations.filterMap fun alloc =>
            match bookMap alloc.market.coin with
            | none => none
            | some book =>
                match FillSimulator.simulate book side alloc.size with
                | none => none
                | some sim => some (MarketScorer.score sim alloc.market side uc none)
          let legs := splitResult.allocations.map fun alloc =>
            ({ market := alloc.market
               side := side
               size := alloc.size
               price := match side with
                 | .buy => alloc.estimatedAvgPrice * (1 + slippage)
                 | .sell => alloc.estimatedAvgPrice * (1 - slippage)
               tif := .Ioc
               slippage := slippage } : ExecutionPlan)
          let weightedFunding := splitResult.allocations.foldl
            (fun s a => s + parseFloatQ (a.market.funding.getD "0") * a.proportion) 0
          let warnings :=
            (if books.length < markets.length then
              ["Partial market data"] else []) ++
            ["Collateral requirements are estimated during executeSplit() using live balances"]
          match legs, List.insertionSort sizeDescRel splitResult.allocations with
          | leg0 :: _, primaryAlloc :: _ =>
              .ok
                { baseAsset := baseAsset
                  side := side
                  requestedSize := size
                  selectedMarket := primaryAlloc.market
                  estimatedAvgPrice := splitResult.aggregateAvgPrice
                  estimatedPriceImpact := splitResult.aggregatePriceImpactBps
                  estimatedFundingRate := weightedFunding
                  alternativesConsidered := List.insertionSort scoreRel scored
                  warnings := warnings
                  plan := leg0
                  allocations := splitResult.allocations
                  collateralPlan := emptyCollateralPlan
                  splitPlan :=
                    { legs := legs
                      collateralPlan := emptyCollateralPlan
                      side := side
                      totalSize := size
                      slippage := slippage } }
          | _, _ => .error .internalError

end Router

/-- Well-formedness the splitter establishes for every surviving
allocation: positive size and `avg = cost / size`. -/
def allocWellFormed (a : SplitAllocation) : Prop :=
  0 < a.size ∧ a.estimatedAvgPrice = a.estimatedCost / a.size

theorem filterDust_wellFormed (allocs : List SplitAllocation) (minSize : ℚ)
    (h : ∀ a ∈ allocs, allocWellFormed a) :
    ∀ a ∈ SplitOptimizer.filterDust allocs minSize, allocWellFormed a := by
  unfold SplitOptimizer.filterDust
  by_cases hl : allocs.length ≤ 1
  · rw [if_pos hl]
    exact h
  · rw [if_neg hl]
    obtain ⟨primary, rest, hs⟩ := filterDust_perm_shape allocs hl
    have hall : ∀ a ∈ primary :: rest, allocWellFormed a := by
      intro a ha
      apply h
      have : a ∈ List.insertionSort sizeDescRel allocs := by rw [hs]; exact ha
      rwa [List.mem_insertionSort] at this
    rw [hs]
    intro a ha
    rcases List.mem_cons.mp ha with rfl | hmem
    · have hp := hall primary (List.mem_cons_self _ _)
      have hdust_nonneg : 0 ≤ sumBy (fun a => a.size)
          (rest.filter fun a => decide (a.size < minSize)) := by
        unfold sumBy
        apply List.sum_nonneg
        intro q hq
        obtain ⟨x, hx, rfl⟩ := List.mem_map.mp hq
        have hxr : x ∈ rest := List.mem_of_mem_filter hx
        exact le_of_lt (hall x (List.mem_cons_of_mem _ hxr)).1
      have hpos : 0 < primary.size + sumBy (fun a => a.size)
          (rest.filter fun a => decide (a.size < minSize)) := by
        have := hp.1
        linarith
      constructor
      · simpa using hpos
      · simp only [if_pos hpos]
    · have hxr : a ∈ rest := List.mem_of_mem_filter hmem
      exact hall a (List.mem_cons_of_mem _ hxr)

theorem rawAlloc_wellFormed (fills : List (String × (ℚ × ℚ)))
    (mm : String → Option PerpMarket) :
    ∀ x ∈ fills.filterMap (SplitOptimizer.rawAllocOf mm), allocWellFormed x := by
  intro x hx
  obtain ⟨cf, hcf, hcfeq⟩ := List.mem_filterMap.mp hx
  unfold SplitOptimizer.rawAllocOf at hcfeq
  split at hcfeq
  · simp at hcfeq
  · split at hcfeq
    · simp at hcfeq
    · have := Option.some.inj hcfeq
      subst this
      rename_i hle
      exact ⟨by push_neg at hle; exact hle, rfl⟩

theorem optimize_allocations_wf (book : AggregatedBook) (side : Side) (size : ℚ)
    (mm : String → Option PerpMarket) (minA : ℚ) (r : SplitResult)
    (hopt : SplitOptimizer.optimize book side size mm minA = some r) :
    ∀ a ∈ r.allocations, allocWellFormed a := by
  simp only [SplitOptimizer.optimize] at hopt
  split at hopt
  · exact absurd hopt (by simp)
  · split at hopt
    · exact absurd hopt (by simp)
    · split at hopt
      · exact absurd hopt (by simp)
      · have hr := Option.some.inj hopt
        subst hr
        intro a ha
        simp only [List.mem_map] at ha
        obtain ⟨b, hb, rfl⟩ := ha
        have hwf : allocWellFormed b :=
          filterDust_wellFormed _ _ (rawAlloc_wellFormed _ mm) b hb
        exact ⟨hwf.1, hwf.2⟩

/-- C5 (amended): every leg of a split quote carries its allocation's
size and a limit price equal to the *allocation's estimated average price*
(the split optimizer's `cost / size` for that market, after dust
redistribution) times `1 + slippage` for buys and `1 − slippage` for
sells — not a per-leg re-simulation. -/
theorem C5_split_leg_prices (baseAsset : String) (markets : List PerpMarket)
    (books : List MarketBookSnapshot) (side : Side) (size : ℚ) (uc : List String)
    (slippage : ℚ) (ts : ℕ) :
    ∀ q, Router.quoteSplit baseAsset markets books side size uc slippage ts = .ok q →
      ∀ leg ∈ q.splitPlan.legs, ∃ a ∈ q.allocations,
        leg.market = a.market ∧ leg.size = a.size ∧
        leg.price = (match side with
          | .buy => a.estimatedAvgPrice * (1 + slippage)
          | .sell => a.estimatedAvgPrice * (1 - slippage)) ∧
        0 < a.size ∧ a.estimatedAvgPrice = a.estimatedCost / a.size := by
  intro q hq leg hleg
  simp only [Router.quoteSplit] at hq
  split at hq
  · exact absurd hq (by simp)
  · split at hq
    · exact absurd hq (by simp)
    · split at hq
      · exact absurd hq (by simp)
      · rename_i splitResult hopt
        split at hq
        · injection hq with hqq
          subst hqq
          simp only [List.mem_map] at hleg
          obtain ⟨a, ha, rfl⟩ := hleg
          refine ⟨a, ha, rfl, rfl, rfl, ?_⟩
          exact optimize_allocations_wf _ _ _ _ _ _ hopt a ha
        · exact absurd hq (by simp)

/-- C5 witness fixture: one market, one single-level book. -/
def booksW5 : List MarketBookSnapshot :=
  [{ coin := "xyz:TSLA", bids := [], asks := [⟨"100", "10"⟩] }]

def aggW5 : AggregatedBook :=
  { baseAsset := "TSLA", bids := [],
    asks := [⟨100, 10, [("xyz:TSLA", 10)]⟩],
    marketBooks := booksW5, timestamp := 0 }

def resW5 : SplitResult :=
  { allocations := [⟨marketXYZ, 5, 500, 100, 1⟩]
    totalSize := 5
    totalCost := 500
    aggregateAvgPrice := 100
    aggregatePriceImpactBps := 0
    midPrice := 100 }

theorem C5_witness :
    ∃ q, Router.quoteSplit "TSLA" [marketXYZ] booksW5 .buy 5 ["USDC"] (1/100) 0 = .ok q ∧
      ∀ leg ∈ q.splitPlan.legs, ∃ a ∈ q.allocations,
        leg.market = a.market ∧ leg.size = a.size ∧
        leg.price = a.estimatedAvgPrice * (1 + 1/100) ∧
        0 < a.size ∧ a.estimatedAvgPrice = a.estimatedCost / a.size := by
  have h100 : parseFloatQ "100" = 100 := by simp +decide [parseFloatQ, digitsVal]
  have h10 : parseFloatQ "10" = 10 := by simp +decide [parseFloatQ, digitsVal]
  have hagg : BookAggregator.aggregateForOrder "TSLA" booksW5 .buy 5 0 = aggW5 := by
    simp +decide [BookAggregator.aggregateForOrder, booksW5, mergeLevels, buildPriceMap,
      insertLevelEntry, sortLevels, List.insertionSort, List.orderedInsert, trimToDepth,
      h100, h10, aggW5]
  have hopt : SplitOptimizer.optimize aggW5 .buy 5
      (fun c => List.find? (fun m => decide (m.coin = c)) (List.reverse [marketXYZ]))
      (1/1000) = some resW5 := by
    simp +decide [SplitOptimizer.optimize, SplitOptimizer.walkLevels,
      SplitOptimizer.processSources, SplitOptimizer.updateFill, SplitOptimizer.rawAllocOf,
      SplitOptimizer.filterDust, aggW5, marketXYZ, sumBy, sizeDescRel,
      List.insertionSort, List.orderedInsert, List.filterMap_cons, List.find?, resW5]
    norm_num
  obtain ⟨q, hq⟩ : ∃ q, Router.quoteSplit "TSLA" [marketXYZ] booksW5 .buy 5
      ["USDC"] (1/100) 0 = .ok q := by
    simp only [Router.quoteSplit]
    rw [hagg, hopt]
    simp +decide [booksW5, aggW5, resW5, List.insertionSort, List.orderedInsert, sizeDescRel]
  refine ⟨q, hq, ?_⟩
  intro leg hleg
  exact C5_split_leg_prices "TSLA" [marketXYZ] booksW5 .buy 5 ["USDC"] (1/100) 0
    q hq leg hleg

/-- C5 counterexample fixtures: a second market contributing a dust-sized
ask that the splitter redistributes into the primary allocation. -/
def booksC5 : List MarketBookSnapshot :=
  [ { coin := "xyz:TSLA", bids := [], asks := [⟨"100", "10"⟩, ⟨"110", "5"⟩] },
    { coin := "flx:TSLA", bids := [], asks := [⟨"100", "0.0005"⟩] } ]

def aggC5 : AggregatedBook :=
  { baseAsset := "TSLA", bids := [],
    asks := [⟨100, 20001/2000, [("xyz:TSLA", 10), ("flx:TSLA", 1/2000)]⟩],
    marketBooks := booksC5, timestamp := 0 }

def resC5 : SplitResult :=
  { allocations := [⟨marketXYZ, 20001/2000, 20001/20, 100, 1⟩]
    totalSize := 20001/2000
    totalCost := 20001/20
    aggregateAvgPrice := 100
    aggregatePriceImpactBps := 0
    midPrice := 100 }

theorem C5_counterexample :
    (∃ q, Router.quoteSplit "TSLA" [marketXYZ, marketFLX] booksC5 .buy (20001/2000)
        ["USDC"] (1/100) 0 = .ok q ∧
      q.splitPlan.legs.map (fun leg => (leg.market.coin, leg.size, leg.price)) =
        [("xyz:TSLA", 20001/2000, 101)]) ∧
    (∃ r, FillSimulator.simulate
        { coin := "xyz:TSLA", bids := [], asks := [⟨"100", "10"⟩, ⟨"110", "5"⟩] }
        .buy (20001/2000) = some r ∧
      r.avgPrice * (1 + 1/100) ≠ 101) := by
  have h100 : parseFloatQ "100" = 100 := by simp +decide [parseFloatQ, digitsVal]
  have h110 : parseFloatQ "110" = 110 := by simp +decide [parseFloatQ, digitsVal]
  have h10 : parseFloatQ "10" = 10 := by simp +decide [parseFloatQ, digitsVal]
  have h5 : parseFloatQ "5" = 5 := by simp +decide [parseFloatQ, digitsVal]
  have h0005 : parseFloatQ "0.0005" = 1/2000 := by
    simp +decide [parseFloatQ, digitsVal]
    norm_num
  constructor
  · have hagg : BookAggregator.aggregateForOrder "TSLA" booksC5 .buy (20001/2000) 0 =
        aggC5 := by
      simp +decide [BookAggregator.aggregateForOrder, booksC5, mergeLevels, buildPriceMap,
        insertLevelEntry, sortLevels, List.insertionSort, List.orderedInsert, trimToDepth,
        h100, h110, h10, h5, h0005, aggC5]
      norm_num
    have hopt : SplitOptimizer.optimize aggC5 .buy (20001/2000)
        (fun c => List.find? (fun m => decide (m.coin = c))
          (List.reverse [marketXYZ, marketFLX]))
        (1/1000) = some resC5 := by
      simp +decide [SplitOptimizer.optimize, SplitOptimizer.walkLevels,
        SplitOptimizer.processSources, SplitOptimizer.updateFill, SplitOptimizer.rawAllocOf,
        SplitOptimizer.filterDust, aggC5, marketXYZ, marketFLX, sumBy, sizeDescRel,
        List.insertionSort, List.orderedInsert, List.filterMap_cons, List.find?, resC5]
      norm_num +decide [SplitOptimizer.rawAllocOf, SplitOptimizer.filterDust, sumBy,
        sizeDescRel, List.insertionSort, List.orderedInsert, List.filterMap_cons,
        List.find?, marketXYZ, marketFLX, resC5]
    simp only [Router.quoteSplit]
    rw [hagg, hopt]
    simp +decide [resC5, List.insertionSort, List.orderedInsert, sizeDescRel, marketXYZ]
    norm_num
  · refine ⟨⟨2000110/20001, 100, 1000/20001, 200011/200, 20001/2000⟩, ?_, ?_⟩
    · simp +decide [FillSimulator.simulate, FillSimulator.walk, FillSimulator.getMidPrice,
        sideLevels, h100, h110, h10, h5]
      norm_num
      rw [abs_of_nonneg (show (0:ℚ) ≤ 10/20001 by norm_num)]
      norm_num
    · norm_num

/-- `SpotToken` (`src/provider/types.ts`). -/
structure SpotToken where
  index : ℕ
  name : String
deriving DecidableEq, Repr

/-- `MetaAsset` (`src/provider/types.ts`). -/
structure MetaAsset where
  name : String
  isDelisted : Bool
deriving DecidableEq, Repr

/-- One deployer's perp metadata (`allPerpMetas` entry). -/
structure PerpMeta where
  «universe» : List MetaAsset
  collateralToken : ℕ
deriving DecidableEq, Repr

/-- `AssetCtx` (`src/provider/types.ts`), restricted to the fields
`parseAsset` reads. -/
structure AssetCtx where
  funding : String
  openInterest : String
  markPx : String
  oraclePx : String
deriving DecidableEq, Repr

/-- `MarketGroup` (`src/market/types.ts`). -/
structure MarketGroup where
  baseAsset : String
  markets : List PerpMarket
  hasAlternatives : Bool
deriving DecidableEq, Repr

/-- ASCII-uppercasing (`baseAsset.toUpperCase()`), character-wise. -/
def toUpperStr (s : String) : String :=
  String.mk (s.data.map Char.toUpper)

namespace MarketRegistry

/-- `MarketRegistry.resolveCollateralToken` (`registry.ts` lines 169-176);
the `Map` built from `spotMeta.tokens` keeps the last entry per index. -/
def resolveCollateralToken (tokenIndex : ℕ) (tokens : List SpotToken) : String :=
  match tokens.reverse.find? fun t => decide (t.index = tokenIndex) with
  | some t => t.name
  | none => "TOKEN_" ++ toString tokenIndex

/-- `MarketRegistry.extractBaseAsset` (`registry.ts` lines 160-167):
the segment after the first colon, with trailing ASCII digits stripped,
falling back to the unstripped segment when stripping empties it. -/
def extractBaseAsset (hip3Name : String) : String :=
  let seg := ((hip3Name.data.dropWhile fun c => decide (c ≠ ':')).drop 1).takeWhile
    fun c => decide (c ≠ ':')
  let stripped := (seg.reverse.dropWhile Char.isDigit).reverse
  if stripped.isEmpty then String.mk seg else String.mk stripped

/-- `MarketRegistry.parseAsset` (`registry.ts` lines 135-158). -/
def parseAsset (asset : MetaAsset) (index : ℕ) (ctx : AssetCtx)
    (dexName : String) (collateral : String) : PerpMarket :=
  let isNative := decide (dexName = "__native__")
  { baseAsset := if isNative then asset.name else extractBaseAsset asset.name
    coin := asset.name
    assetIndex := index
    dexName := dexName
    collateral := collateral
    isNative := isNative
    funding := some ctx.funding
    openInterest := some ctx.openInterest
    markPrice := some ctx.markPx
    oraclePx := some ctx.oraclePx }

/-- Inserting a parsed market into the group index being built
(`registry.ts` lines 87-99): keyed by uppercased base asset,
`hasAlternatives` set when the group holds more than one market. -/
def insertIntoGroups (groups : List (String × MarketGroup)) (m : PerpMarket) :
    List (String × MarketGroup) :=
  let key := toUpperStr m.baseAsset
  match groups with
  | [] => [(key, { baseAsset := key, markets := [m], hasAlternatives := false })]
  | (k, g) :: rest =>
      if k = key then
        (k, { baseAsset := g.baseAsset
              markets := g.markets ++ [m]
              hasAlternatives := decide (g.markets.length + 1 > 1) }) :: rest
      else (k, g) :: insertIntoGroups rest m

/-- The markets one deployer contributes (`registry.ts` lines 67-100):
delisted assets and assets with no context are skipped; the global asset
index is the local index for dex 0 and
`100000 + dexIndex·10000 + local index` otherwise. -/
def marketsOfDex (dexIndex : ℕ) (meta : PerpMeta) (assetCtxs : List AssetCtx)
    (dexName : String) (collateral : String) : List PerpMarket :=
  meta.«universe».enum.filterMap fun ia =>
    if ia.2.isDelisted then none
    else
      match assetCtxs.get? ia.1 with
      | none => none
      | some ctx =>
          let globalAssetIndex :=
            if dexIndex = 0 then ia.1 else 100000 + dexIndex * 10000 + ia.1
          some (parseAsset ia.2 globalAssetIndex ctx dexName collateral)

/-- The fetch outcomes `MarketRegistry.discover` consumes
(`registry.ts` lines 18-47): the spot-token metadata, the deployer list,
the per-deployer metadata (all three propagate failure), and the settled
per-deployer asset-context results (failures are skipped per deployer). -/
structure DiscoverInputs where
  spotMeta : Except Unit (List SpotToken)
  perpDexs : Except Unit (List (Option String))
  allPerpMetas : Except Unit (List PerpMeta)
  ctxResults : List (Except Unit (List AssetCtx))
deriving Repr

/-- The index `discover` builds (`registry.ts` lines 18-101), or the error
that aborts it before any state is touched. -/
def buildIndex (inp : DiscoverInputs) : Except Unit (List (String × MarketGroup)) :=
  match inp.spotMeta with
  | .error e => .error e
  | .ok tokens =>
      match inp.perpDexs, inp.allPerpMetas with
      | .error e, _ => .error e
      | .ok _, .error e => .error e
      | .ok dexs, .ok allMetas =>
          .ok (allMetas.enum.foldl
            (fun groups im =>
              let dexName := match dexs.get? im.1 with
                | some (some n) => n
                | _ => "__native__"
              let collateral := resolveCollateralToken im.2.collateralToken tokens
              match inp.ctxResults.get? im.1 with
              | none => groups
              | some (.error _) => groups
              | some (.ok assetCtxs) =>
                  (marketsOfDex im.1 im.2 assetCtxs dexName collateral).foldl
                    insertIntoGroups groups)
            [])

/-- The registry's owned index (`registry.ts` line 7); the spot-token map
is internal to discovery and not read by any getter. -/
structure RegistryState where
  groups : List (String × MarketGroup)
deriving DecidableEq, Repr

/-- One `discover()` call as a state transition: the index is replaced
only when the whole build succeeded (`this.groups = nextGroups` is the
first state write, after every await). -/
def discoverStep (st : RegistryState) (inp : DiscoverInputs) : RegistryState :=
  match buildIndex inp with
  | .ok g => { groups := g }
  | .error _ => st

def getMarkets (st : RegistryState) (baseAsset : String) : List PerpMarket :=
  match st.groups.find? fun kg => decide (kg.1 = toUpperStr baseAsset) with
  | some kg => kg.2.markets
  | none => []

def getGroup (st : RegistryState) (baseAsset : String) : Option MarketGroup :=
  (st.groups.find? fun kg => decide (kg.1 = toUpperStr baseAsset)).map fun kg => kg.2

def getAllGroups (st : RegistryState) : List MarketGroup :=
  st.groups.map fun kg => kg.2

def getGroupsWithAlternatives (st : RegistryState) : List MarketGroup :=
  (st.groups.map fun kg => kg.2).filter fun g => g.hasAlternatives

end MarketRegistry

/-- C7: a failing `discover()` (spot-token, deployer-list or perp-metadata
fetch failure) leaves the registry index untouched — all four getters
answer exactly as before — and a successful one replaces the index as a
whole, independently of the previous state. -/
theorem C7_registry_atomic_discover (st : MarketRegistry.RegistryState)
    (inp : MarketRegistry.DiscoverInputs) :
    (∀ e, MarketRegistry.buildIndex inp = .error e →
      MarketRegistry.discoverStep st inp = st ∧
      (∀ b, MarketRegistry.getMarkets (MarketRegistry.discoverStep st inp) b =
        MarketRegistry.getMarkets st b) ∧
      (∀ b, MarketRegistry.getGroup (MarketRegistry.discoverStep st inp) b =
        MarketRegistry.getGroup st b) ∧
      MarketRegistry.getAllGroups (MarketRegistry.discoverStep st inp) =
        MarketRegistry.getAllGroups st ∧
      MarketRegistry.getGroupsWithAlternatives (MarketRegistry.discoverStep st inp) =
        MarketRegistry.getGroupsWithAlternatives st) ∧
    (∀ g, MarketRegistry.buildIndex inp = .ok g →
      ∀ st2, MarketRegistry.discoverStep st inp = MarketRegistry.discoverStep st2 inp) := by
  constructor
  · intro e he
    have hstep : MarketRegistry.discoverStep st inp = st := by
      unfold MarketRegistry.discoverStep
      rw [he]
    exact ⟨hstep, fun b => by rw [hstep], fun b => by rw [hstep], by rw [hstep],
      by rw [hstep]⟩
  · intro g hg st2
    unfold MarketRegistry.discoverStep
    rw [hg]

/-- C7 witness fixtures: a populated registry and a discovery run whose
spot-metadata fetch fails. -/
def stW7 : MarketRegistry.RegistryState :=
  { groups := [("TSLA",
      { baseAsset := "TSLA", markets := [marketXYZ, marketFLX],
        hasAlternatives := true })] }

def inpW7 : MarketRegistry.DiscoverInputs :=
  { spotMeta := .error ()
    perpDexs := .ok [none]
    allPerpMetas := .ok []
    ctxResults := [] }

theorem C7_witness :
    MarketRegistry.buildIndex inpW7 = .error () ∧
      MarketRegistry.discoverStep stW7 inpW7 = stW7 ∧
      ∀ b, MarketRegistry.getMarkets (MarketRegistry.discoverStep stW7 inpW7) b =
        MarketRegistry.getMarkets stW7 b := by
  have he : MarketRegistry.buildIndex inpW7 = .error () := by
    simp [MarketRegistry.buildIndex, inpW7]
  have h := (C7_registry_atomic_discover stW7 inpW7).1 () he
  exact ⟨he, h.1, h.2.1⟩

/-- One spot trading pair of `spotMeta.universe`
(`src/collateral/manager.ts` lines 182-189). -/
structure SpotPair where
  index : ℕ
  tokens : List ℕ
deriving DecidableEq, Repr

/-- `spotMeta`: token list plus pair universe. -/
structure SpotMeta where
  tokens : List SpotToken
  «universe» : List SpotPair
deriving DecidableEq, Repr

/-- One executed swap recorded in a `CollateralReceipt`. -/
structure SwapExecuted where
  swapFrom : String
  swapTo : String
  amount : ℚ
  filled : ℚ
deriving DecidableEq, Repr

/-- `CollateralReceipt` (`src/collateral/types.ts`). -/
structure CollateralReceipt where
  success : Bool
  swapsExecuted : List SwapExecuted
  abstractionWasEnabled : Bool
  error : Option String
deriving DecidableEq, Repr

/-- A spot order as handed to `provider.placeOrder` by `prepare`
(`manager.ts` lines 248-255); `price` is kept exact instead of
`toFixed(6)`-formatted. -/
structure PlacedSpotOrder where
  assetIndex : ℕ
  isBuy : Bool
  price : ℚ
  size : ℚ
deriving DecidableEq, Repr

namespace CollateralManager

/-- `CollateralManager.estimateSwapCost` (`manager.ts` lines 130-159).
The spot-book fetch outcome is the `fetch` input; an exception maps to the
`.error` case (the surrounding `try/catch` returns the 50 bps default). -/
def estimateSwapCost (_fromToken _toToken : String) (fetch : Except Unit L2Book)
    (amount : ℚ) : ℚ :=
  match fetch with
  | .error _ => 50
  | .ok book =>
      if book.bids.isEmpty ∧ book.asks.isEmpty then 50
      else
        match FillSimulator.simulate book .buy amount with
        | none => 100
        | some sim => sim.priceImpactBps

/-- The `Map(tokens.map(t => [t.name, t]))` lookup (`manager.ts` line 181):
last entry wins. -/
def tokenByName (sm : SpotMeta) (nm : String) : Option SpotToken :=
  sm.tokens.reverse.find? fun t => decide (t.name = nm)

/-- The `pairByTokenIndex` map (`manager.ts` lines 182-189): the *first*
pair containing the token index wins (`if (!has) set`). -/
def pairByTokenIndex (sm : SpotMeta) (ti : ℕ) : Option SpotPair :=
  sm.«universe».find? fun p => p.tokens.contains ti

/-- The failure receipt `prepare` returns, with `swapsExecuted` accurate
up to the point of failure. -/
def failReceipt (swaps : List SwapExecuted) (abstractionWasEnabled : Bool)
    (msg : String) : CollateralReceipt :=
  { success := false
    swapsExecuted := swaps
    abstractionWasEnabled := abstractionWasEnabled
    error := some msg }

/-- The per-requirement swap loop of `CollateralManager.prepare`
(`manager.ts` lines 191-269), processing requirements in order and
stopping at the first failure.  `bookFor` is the spot-book fetch (`none`
models a thrown fetch, caught by the surrounding `try`), `fillFor` the
filled size the venue reports for the token's swap order.  The
`usdClassTransfer` perp→spot transfer writes no state read here and is
not recorded. -/
def prepareGo (sm : SpotMeta) (bookFor : String → Option L2Book)
    (fillFor : String → ℚ) (reqs : List CollateralRequirement)
    (swaps : List SwapExecuted) (orders : List PlacedSpotOrder)
    (abstractionWasEnabled : Bool) : CollateralReceipt × List PlacedSpotOrder :=
  match reqs with
  | [] => ({ success := true, swapsExecuted := swaps,
             abstractionWasEnabled := abstractionWasEnabled, error := none }, orders)
  | req :: rest =>
      if req.shortfall ≤ 0 ∨ req.token = "USDC" then
        prepareGo sm bookFor fillFor rest swaps orders abstractionWasEnabled
      else
        match bookFor req.token with
        | none =>
            (failReceipt swaps abstractionWasEnabled "spot book fetch failed", orders)
        | some spotBook =>
            match spotBook.asks with
            | [] =>
                (failReceipt swaps abstractionWasEnabled
                  ("No spot liquidity for " ++ req.token), orders)
            | bestAskLevel :: _ =>
                let limitPrice := parseFloatQ bestAskLevel.px * (1005/1000)
                match tokenByName sm req.token with
                | none =>
                    (failReceipt swaps abstractionWasEnabled
                      ("Spot token " ++ req.token ++ " not found in spotMeta"), orders)
                | some spotToken =>
                    match pairByTokenIndex sm spotToken.index with
                    | none =>
                        (failReceipt swaps abstractionWasEnabled
                          ("No spot pair found for " ++ req.token), orders)
                    | some pair =>
                        let spotAssetIndex := 10000 + 2 * pair.index
                        prepareGo sm bookFor fillFor rest
                          (swaps ++ [⟨req.swapFrom, req.token, req.shortfall,
                            fillFor req.token⟩])
                          (orders ++ [⟨spotAssetIndex, true, limitPrice, req.shortfall⟩])
                          abstractionWasEnabled

/-- `CollateralManager.prepare` (`manager.ts` lines 165-285), returning the
receipt together with the spot orders it placed. -/
def prepare (plan : CollateralPlan) (spotMetaFetch : Except Unit SpotMeta)
    (bookFor : String → Option L2Book) (fillFor : String → ℚ) :
    CollateralReceipt × List PlacedSpotOrder :=
  let abstractionWasEnabled := !plan.abstractionEnabled
  match spotMetaFetch with
  | .error _ => (failReceipt [] abstractionWasEnabled "spotMeta fetch failed", [])
  | .ok sm => prepareGo sm bookFor fillFor plan.requirements [] [] abstractionWasEnabled

end CollateralManager

/-- C8: `estimateSwapCost` returns the 50 bps default when the spot-book
fetch fails or the book is empty on both sides; 100 bps when the book is
present but a simulated buy of `amount` lacks depth (ask depth < amount);
and otherwise the simulated price impact in bps. -/
theorem C8_estimateSwapCost_branches (fromToken toToken : String)
    (fetch : Except Unit L2Book) (amount : ℚ) :
    (∀ e, fetch = .error e →
      CollateralManager.estimateSwapCost fromToken toToken fetch amount = 50) ∧
    (∀ book, fetch = .ok book → book.bids = [] → book.asks = [] →
      CollateralManager.estimateSwapCost fromToken toToken fetch amount = 50) ∧
    (∀ book, fetch = .ok book → ¬(book.bids = [] ∧ book.asks = []) →
      (∀ l ∈ book.asks, 0 ≤ parseFloatQ l.sz) → 0 < amount →
      sumSz book.asks < amount →
      CollateralManager.estimateSwapCost fromToken toToken fetch amount = 100) ∧
    (∀ book, fetch = .ok book → ¬(book.bids = [] ∧ book.asks = []) →
      (∀ l ∈ book.asks, 0 ≤ parseFloatQ l.sz) → 0 < amount →
      amount ≤ sumSz book.asks →
      ∃ r, FillSimulator.simulate book .buy amount = some r ∧
        CollateralManager.estimateSwapCost fromToken toToken fetch amount =
          r.priceImpactBps) := by
  refine ⟨?_, ?_, ?_, ?_⟩
  · intro e he
    rw [he]
    rfl
  · intro book hb hbids hasks
    rw [hb]
    simp [CollateralManager.estimateSwapCost, hbids, hasks]
  · intro book hb hne hsz hpos hlt
    rw [hb]
    have hcond : ¬(book.bids.isEmpty = true ∧ book.asks.isEmpty = true) := by
      simpa [List.isEmpty_iff] using hne
    have hnone : FillSimulator.simulate book .buy amount = none :=
      (FillSimulator.simulate_eq_none_iff book .buy amount (le_of_lt hpos) hsz).mpr hlt
    unfold CollateralManager.estimateSwapCost
    dsimp only
    rw [if_neg hcond, hnone]
  · intro book hb hne hsz hpos hge
    rw [hb]
    have hcond : ¬(book.bids.isEmpty = true ∧ book.asks.isEmpty = true) := by
      simpa [List.isEmpty_iff] using hne
    rcases hs : FillSimulator.simulate book .buy amount with _ | r
    · have := (FillSimulator.simulate_eq_none_iff book .buy amount
        (le_of_lt hpos) hsz).mp hs
      exact absurd this (not_lt.mpr hge)
    · refine ⟨r, rfl, ?_⟩
      unfold CollateralManager.estimateSwapCost
      dsimp only
      rw [if_neg hcond, hs]

/-- C8 witness fixture: a one-sided spot book with ample ask depth. -/
def spotBookW8 : L2Book :=
  { coin := "USDH", bids := [], asks := [⟨"1.0", "100"⟩] }

theorem C8_witness :
    (0 : ℚ) < 5 ∧
      ∃ r, FillSimulator.simulate spotBookW8 .buy 5 = some r ∧
        CollateralManager.estimateSwapCost "USDC" "USDH" (.ok spotBookW8) 5 =
          r.priceImpactBps := by
  have h100 : parseFloatQ "100" = 100 := by simp +decide [parseFloatQ, digitsVal]
  refine ⟨by norm_num, ?_⟩
  apply (C8_estimateSwapCost_branches "USDC" "USDH" (.ok spotBookW8) 5).2.2.2
    spotBookW8 rfl
  · intro h
    simp [spotBookW8] at h
  · intro l hl
    simp only [spotBookW8, List.mem_singleton] at hl
    subst hl
    simp [h100]
  · norm_num
  · simp [sumSz, spotBookW8, h100]
    norm_num

theorem prepareGo_orders (sm : SpotMeta) (bookFor : String → Option L2Book)
    (fillFor : String → ℚ) (reqs : List CollateralRequirement)
    (swaps : List SwapExecuted) (orders : List PlacedSpotOrder) (abs0 : Bool)
    (h : ∀ o ∈ orders, o.isBuy = true ∧ ∃ pair ∈ sm.«universe»,
      o.assetIndex = 10000 + 2 * pair.index ∧
      ∃ tok ∈ sm.tokens, tok.index ∈ pair.tokens) :
    ∀ o ∈ (CollateralManager.prepareGo sm bookFor fillFor reqs swaps orders abs0).2,
      o.isBuy = true ∧ ∃ pair ∈ sm.«universe»,
        o.assetIndex = 10000 + 2 * pair.index ∧
        ∃ tok ∈ sm.tokens, tok.index ∈ pair.tokens := by
  induction reqs generalizing swaps orders with
  | nil => simpa [CollateralManager.prepareGo] using h
  | cons req rest ih =>
      simp only [CollateralManager.prepareGo]
      split
      · exact ih swaps orders h
      · split
        · simpa using h
        · split
          · simpa using h
          · split
            · simpa using h
            · rename_i spotToken htok
              split
              · simpa using h
              · rename_i pair hpair
                apply ih
                intro o ho
                rcases List.mem_append.mp ho with ho1 | ho2
                · exact h o ho1
                · rw [List.mem_singleton.mp ho2]
                  refine ⟨rfl, pair, List.mem_of_find?_eq_some hpair, rfl, spotToken,
                    ?_, ?_⟩
                  · have := List.mem_of_find?_eq_some htok
                    exact List.mem_reverse.mp (by
                      simpa [CollateralManager.tokenByName] using this)
                  · have := List.find?_some hpair
                    simpa using this

/-- C9: (a) every market the registry builds for deployer `d` with local
index `i` carries the global asset index `i` when `d = 0` and
`100000 + d·10000 + i` when `d ≥ 1`; (b) every spot swap order `prepare`
places uses asset index `10000 + 2·pair_index` of a spot pair that
contains the target token's index. -/
theorem C9_asset_index_encoding :
    (∀ (dexIndex : ℕ) (meta : PerpMeta) (assetCtxs : List AssetCtx)
        (dexName collateral : String),
      ∀ m ∈ MarketRegistry.marketsOfDex dexIndex meta assetCtxs dexName collateral,
        ∃ i asset ctx, meta.«universe»[i]? = some asset ∧
          asset.isDelisted = false ∧ assetCtxs.get? i = some ctx ∧
          m.coin = asset.name ∧
          m.assetIndex = if dexIndex = 0 then i else 100000 + dexIndex * 10000 + i) ∧
    (∀ (plan : CollateralPlan) (sm : SpotMeta) (bookFor : String → Option L2Book)
        (fillFor : String → ℚ),
      ∀ o ∈ (CollateralManager.prepare plan (.ok sm) bookFor fillFor).2,
        o.isBuy = true ∧ ∃ pair ∈ sm.«universe»,
          o.assetIndex = 10000 + 2 * pair.index ∧
          ∃ tok ∈ sm.tokens, tok.index ∈ pair.tokens) := by
  constructor
  · intro dexIndex meta assetCtxs dexName collateral m hm
    simp only [MarketRegistry.marketsOfDex, List.mem_filterMap] at hm
    obtain ⟨ia, hia, hiaeq⟩ := hm
    have hget : meta.«universe»[ia.1]? = some ia.2 :=
      List.mem_enum_iff_getElem?.mp hia
    by_cases hd : ia.2.isDelisted
    · rw [if_pos hd] at hiaeq
      exact absurd hiaeq (by simp)
    · rw [if_neg hd] at hiaeq
      cases hc : assetCtxs.get? ia.1 with
      | none =>
          rw [hc] at hiaeq
          exact absurd hiaeq (by simp)
      | some ctx =>
          rw [hc] at hiaeq
          have hm2 := Option.some.inj hiaeq
          subst hm2
          exact ⟨ia.1, ia.2, ctx, hget, by simpa using hd, hc, rfl, rfl⟩
  · intro plan sm bookFor fillFor o ho
    have := prepareGo_orders sm bookFor fillFor plan.requirements [] []
      (!plan.abstractionEnabled) (by simp)
    exact this o ho

/-- C9 witness fixtures. -/
def ctxW9 : AssetCtx :=
  { funding := "0.00000625", openInterest := "0", markPx := "431.5", oraclePx := "431.5" }

def smW9 : SpotMeta :=
  { tokens := [⟨1, "USDH"⟩], «universe» := [⟨7, [1, 0]⟩] }

def planW9 : CollateralPlan :=
  { requirements := [⟨"USDH", 10, 5, 5, "USDC", 0⟩]
    totalSwapCostBps := 0
    swapsNeeded := true
    abstractionEnabled := false }

def bookForW9 : String → Option L2Book :=
  fun _ => some { coin := "USDH", bids := [], asks := [⟨"1.0", "100"⟩] }

theorem C9_witness :
    (∃ i asset ctx,
      (⟨[⟨"xyz:TSLA", false⟩], 1⟩ : PerpMeta).«universe»[i]? = some asset ∧
      asset.isDelisted = false ∧ [ctxW9].get? i = some ctx ∧
      (MarketRegistry.parseAsset ⟨"xyz:TSLA", false⟩ 110000 ctxW9 "xyz" "USDC").coin =
        asset.name ∧
      (MarketRegistry.parseAsset ⟨"xyz:TSLA", false⟩ 110000 ctxW9 "xyz" "USDC").assetIndex =
        if (1 : ℕ) = 0 then i else 100000 + 1 * 10000 + i) ∧
    ((CollateralManager.prepare planW9 (.ok smW9) bookForW9 (fun _ => 5)).2.map
      fun o => o.assetIndex) = [10014] ∧
    (∀ o ∈ (CollateralManager.prepare planW9 (.ok smW9) bookForW9 (fun _ => 5)).2,
      o.isBuy = true ∧ ∃ pair ∈ smW9.«universe»,
        o.assetIndex = 10000 + 2 * pair.index ∧
        ∃ tok ∈ smW9.tokens, tok.index ∈ pair.tokens) := by
  refine ⟨?_, ?_, ?_⟩
  · apply C9_asset_index_encoding.1 1 ⟨[⟨"xyz:TSLA", false⟩], 1⟩ [ctxW9] "xyz" "USDC"
    simp +decide [MarketRegistry.marketsOfDex, List.filterMap_cons]
  · simp +decide [CollateralManager.prepare, CollateralManager.prepareGo, planW9,
      smW9, bookForW9, CollateralManager.tokenByName, CollateralManager.pairByTokenIndex,
      List.find?]
  · exact C9_asset_index_encoding.2 planW9 smW9 bookForW9 (fun _ => 5)

/-- A spot balance entry (`spotClearinghouseState(...).balances`). -/
structure SpotBalance where
  coin : String
  total : String
deriving DecidableEq, Repr

namespace HyperliquidPrime

/-- `HyperliquidPrime.resolveUserCollateral` (`src/index.ts` lines
638-669): `["USDC"]` when no wallet is configured or the spot-balance
fetch fails (with a warning); otherwise the coins with positive balances,
with `"USDC"` appended when absent. -/
def resolveUserCollateral (walletAddress : Option String)
    (spotFetch : Except Unit (List SpotBalance)) : List String × List String :=
  match walletAddress with
  | none => (["USDC"], [])
  | some _ =>
      match spotFetch with
      | .error _ => (["USDC"],
          ["Could not load spot balances for collateral matching; defaulting to USDC"])
      | .ok balances =>
          let c := (balances.filter fun b => decide (parseFloatQ b.total > 0)).map
            fun b => b.coin
          (if c.contains "USDC" then c else c ++ ["USDC"], [])

end HyperliquidPrime

/-- C10: the collateral set the facade resolves (and hands to
`Router.quote`/`quoteSplit`, which forward it verbatim to the scorer)
always contains `"USDC"`; consequently the scorer never applies a
collateral penalty to a USDC-collateral market for a facade quote:
`collateralMatch` holds and the total score is exactly
`price_impact − funding_score`. -/
theorem C10_facade_collateral_contains_usdc (walletAddress : Option String)
    (spotFetch : Except Unit (List SpotBalance)) :
    "USDC" ∈ (HyperliquidPrime.resolveUserCollateral walletAddress spotFetch).1 ∧
      (∀ (sim : SimulationResult) (market : PerpMarket) (side : Side)
          (swapCost : Option ℚ), market.collateral = "USDC" →
        (MarketScorer.score sim market side
            (HyperliquidPrime.resolveUserCollateral walletAddress spotFetch).1
            swapCost).collateralMatch = true ∧
        (MarketScorer.score sim market side
            (HyperliquidPrime.resolveUserCollateral walletAddress spotFetch).1
            swapCost).totalScore =
          some (sim.priceImpactBps -
            (match side with
              | .buy => -(parseFloatQ (market.funding.getD "0"))
              | .sell => parseFloatQ (market.funding.getD "0")) * 10000 * 3)) := by
  have hmem : "USDC" ∈ (HyperliquidPrime.resolveUserCollateral walletAddress spotFetch).1 := by
    cases walletAddress with
    | none => simp [HyperliquidPrime.resolveUserCollateral]
    | some w =>
        cases spotFetch with
        | error e => simp [HyperliquidPrime.resolveUserCollateral]
        | ok balances =>
            simp only [HyperliquidPrime.resolveUserCollateral]
            by_cases hc : (((balances.filter fun b => decide (parseFloatQ b.total > 0)).map
                fun b => b.coin).contains "USDC") = true
            · rw [if_pos hc]
              simpa [List.elem_iff] using hc
            · rw [if_neg hc]
              simp
  refine ⟨hmem, ?_⟩
  intro sim market side swapCost hcoll
  have hcont : ((HyperliquidPrime.resolveUserCollateral walletAddress
      spotFetch).1).contains market.collateral = true := by
    rw [hcoll]
    simpa [List.elem_iff] using hmem
  constructor
  · simp only [MarketScorer.score, hcont]
  · simp only [MarketScorer.score, hcont]
    simp

theorem C10_witness :
    marketXYZ.collateral = "USDC" ∧
      (MarketScorer.score ⟨4315/10, 17250/40, 78/100, 21575, 50⟩ marketXYZ .buy
          (HyperliquidPrime.resolveUserCollateral none (.ok [])).1
          none).collateralMatch = true ∧
      (MarketScorer.score ⟨4315/10, 17250/40, 78/100, 21575, 50⟩ marketXYZ .buy
          (HyperliquidPrime.resolveUserCollateral none (.ok [])).1
          none).totalScore =
        some ((78/100 : ℚ) -
          (match Side.buy with
            | .buy => -(parseFloatQ (marketXYZ.funding.getD "0"))
            | .sell => parseFloatQ (marketXYZ.funding.getD "0")) * 10000 * 3) := by
  have hcoll : marketXYZ.collateral = "USDC" := by simp [marketXYZ]
  have h := (C10_facade_collateral_contains_usdc none (.ok [])).2
    ⟨4315/10, 17250/40, 78/100, 21575, 50⟩ marketXYZ .buy none hcoll
  exact ⟨hcoll, h.1, h.2⟩
